import Mathlib

/-!
Verification of the functional-coverage engine in `cocotb_coverage/coverage.py`.

The embedding models the module faithfully:

* Python values sampled into bins are modelled by `PyVal` (ints, bools,
  strings, tuples), which covers every bin shape the module uses
  (`CoverPoint` bins, `CoverCross` tuple bins, the `CoverCheck`
  `"PASS"`/`"FAIL"` string bins, and the implicit `True` bin).
* The global `coverage_db` dict (keyed by dotted name strings) is modelled
  as an insertion-ordered association list `Registry` keyed by the list of
  dot-separated name segments (`NodePath`); Python dicts preserve insertion
  order and have unique keys.
* Each coverage object (`CoverItem`, `CoverPoint`, `CoverCross`,
  `CoverCheck`) is a `RegNode` record; the `kind` field plays the role of
  the Python class, and fields unused by a given kind keep their
  `CoverItem.__init__` defaults.  Functions stored on the objects
  (`rel`, `f_pass`, `f_fail`) are Lean functions over `PyVal`.
* `CoverItem._update_coverage` / `_update_size` walk the `_parent` chain;
  since `CoverItem.__init__` always sets `_parent` to the node registered
  at the name with the last dot-segment removed (creating it first if
  missing), the ancestors of a node are exactly the registered strict
  prefixes of its path, and the walk is modelled as a bump of every strict
  prefix present in the registry.
* Constructors that `raise` are modelled with a result type that carries
  the registry state at the moment of the raise, because the global
  `coverage_db` survives the exception.
* Python `/` on ints is true division; it is modelled with `ℚ`.
  `ZeroDivisionError` (division by a zero `size`) and the
  `AttributeError` raised by `CoverItem.detailed_coverage` are modelled
  with `Option`, `none` being the raised exception.
-/

/-- A dotted hierarchical name, as its list of dot-separated segments
(`"top.a.b"` is `["top", "a", "b"]`). -/
abbrev NodePath := List String

/-- Python values that appear as bins or sampled values in the module. -/
inductive PyVal where
  | int : Int → PyVal
  | bool : Bool → PyVal
  | str : String → PyVal
  | tup : List PyVal → PyVal

mutual
/-- Structural equality on `PyVal` (Python `==` on these value shapes). -/
def PyVal.beq : PyVal → PyVal → Bool
  | .int a, .int b => a == b
  | .bool a, .bool b => a == b
  | .str a, .str b => a == b
  | .tup a, .tup b => PyVal.beqList a b
  | _, _ => false

/-- Elementwise `PyVal.beq` on tuple contents. -/
def PyVal.beqList : List PyVal → List PyVal → Bool
  | [], [] => true
  | x :: xs, y :: ys => PyVal.beq x y && PyVal.beqList xs ys
  | _, _ => false
end

theorem PyVal.beq_iff : ∀ a b : PyVal, PyVal.beq a b = true ↔ a = b := by
  apply PyVal.beq.induct (fun a b => PyVal.beq a b = true ↔ a = b)
    (fun xs ys => PyVal.beqList xs ys = true ↔ xs = ys)
  · intro a b; simp [PyVal.beq]
  · intro a b; simp [PyVal.beq]
  · intro a b; simp [PyVal.beq]
  · intro a b h; simp [PyVal.beq, h]
  · intro t x h1 h2 h3 h4
    cases t <;> cases x <;>
      first
        | exact (h1 _ _ rfl rfl).elim
        | exact (h2 _ _ rfl rfl).elim
        | exact (h3 _ _ rfl rfl).elim
        | exact (h4 _ _ rfl rfl).elim
        | simp [PyVal.beq]
  · simp [PyVal.beqList]
  · intro x xs y ys h1 h2; simp [PyVal.beqList, h1, h2]
  · intro t x h1 h2
    cases t <;> cases x <;>
      first
        | exact (h1 rfl rfl).elim
        | exact (h2 _ _ _ _ rfl rfl).elim
        | simp [PyVal.beqList]

instance : DecidableEq PyVal := fun a b =>
  decidable_of_iff (PyVal.beq a b = true) (PyVal.beq_iff a b)

/-- Which Python class a registered object belongs to.  `group` is a plain
`CoverItem` (created automatically for ancestor names). -/
inductive NodeKind where
  | group
  | point
  | cross
  | check
deriving DecidableEq

/-- One object of the coverage trie.  Field names follow the Python
attributes (`_size`, `_coverage`, `_parent`, `_children`, `_hits`,
`_weight`, `_at_least`, `_injection`, `_relation`, `_f_pass`, `_f_fail`,
`_items`, `_new_hits`).  Hit counts are naturals; `coverage` is an integer
because `CoverCheck` can propagate negative deltas. -/
structure RegNode where
  kind : NodeKind
  parent : Option NodePath
  children : List NodePath
  size : Nat
  coverage : Int
  hits : List (PyVal × Nat)
  weight : Nat
  atLeast : Nat
  injection : Bool
  rel : PyVal → PyVal → Bool
  fPass : Option (PyVal → Bool)
  fFail : PyVal → Bool
  items : List NodePath
  newHits : List PyVal

/-- The global `coverage_db`, an insertion-ordered map from dotted names to
objects. -/
abbrev Registry := List (NodePath × RegNode)

/-- `coverage_db[n]`, returning `none` where Python would raise `KeyError`. -/
def dbLookup (db : Registry) (n : NodePath) : Option RegNode :=
  match db with
  | [] => none
  | (m, e) :: rest => if m = n then some e else dbLookup rest n

/-- Mutation of the object stored at an existing key (Python objects are
mutated in place, so the dict key keeps its position). -/
def dbSet (db : Registry) (n : NodePath) (e : RegNode) : Registry :=
  db.map (fun p => if p.1 = n then (p.1, e) else p)

/-- `coverage_db[n] = e`: replace if the key exists, else append (Python
dicts append new keys in insertion order). -/
def dbAssign (db : Registry) (n : NodePath) (e : RegNode) : Registry :=
  if (dbLookup db n).isSome then dbSet db n e else db ++ [(n, e)]

/-- The attribute values set by `CoverItem.__init__` before any subclass
constructor runs: size 0, coverage 0, no children, empty hit map, and the
subclass-field defaults (`weight=1`, `at_least=1`, `inj=False`, equality
relation). -/
def initNode (k : NodeKind) (par : Option NodePath) : RegNode :=
  { kind := k
    parent := par
    children := []
    size := 0
    coverage := 0
    hits := []
    weight := 1
    atLeast := 1
    injection := false
    rel := fun a b => decide (a = b)
    fPass := none
    fFail := fun _ => false
    items := []
    newHits := [] }

/-- Boolean test that `a` is a (not necessarily strict) leading segment
sequence of `b`. -/
def isPre : NodePath → NodePath → Bool
  | [], _ => true
  | _ :: _, [] => false
  | x :: xs, y :: ys => decide (x = y) && isPre xs ys

/-- `a` is a strict ancestor name of `b` in the dotted hierarchy. -/
def strictPre (a b : NodePath) : Bool :=
  isPre a b && decide (a ≠ b)

/-- `CoverItem.__init__` (coverage.py lines 70-90): record the node under
`name`, first ensuring the parent name (the path without its last segment)
is registered — creating a plain `CoverItem` chain recursively — and
linking the new node into the parent's `_children`.  `k` is the class of
the object under construction.  Callers only invoke this when `name` is
not yet registered. -/
def CoverItem_initAux : Registry → List String → NodeKind → Registry
  | db, [], k => dbAssign db [] (initNode k none)
  | db, s :: rest, k =>
    match rest with
    | [] => dbAssign db [s] (initNode k none)
    | _ :: _ =>
      let parentName := rest.reverse
      let db1 :=
        if (dbLookup db parentName).isNone then CoverItem_initAux db rest .group else db
      let db2 :=
        match dbLookup db1 parentName with
        | some pe =>
          dbSet db1 parentName { pe with children := pe.children ++ [(s :: rest).reverse] }
        | none => db1
      dbAssign db2 ((s :: rest).reverse) (initNode k (some parentName))

/-- Entry point matching the Python signature.  The recursion of
`CoverItem.__init__` removes the last dot-segment at each level
(`parent_name = ".".join(name.split(".")[:-1])`), so it is phrased
structurally over the reversed segment list: for `name = (s :: rest).
reverse`, the parent name is `rest.reverse`. -/
def CoverItem_init (db : Registry) (name : NodePath) (k : NodeKind) : Registry :=
  CoverItem_initAux db name.reverse k

/-- `CoverItem._update_size` as invoked by a leaf constructor on its
parent: every strict ancestor (= registered strict prefix) gains `delta`.
The leaf itself already assigned its own `_size` directly. -/
def update_size (db : Registry) (name : NodePath) (delta : Nat) : Registry :=
  db.map (fun p =>
    if strictPre p.1 name then (p.1, { p.2 with size := p.2.size + delta }) else p)

/-- `CoverItem._update_coverage` as invoked by a leaf on its parent: every
strict ancestor gains `delta` on its `_coverage`.  (The threshold-callback
evaluation inside the same method is modelled separately by
`update_coverage_fires`.) -/
def update_coverage (db : Registry) (name : NodePath) (delta : Int) : Registry :=
  db.map (fun p =>
    if strictPre p.1 name then (p.1, { p.2 with coverage := p.2.coverage + delta }) else p)

/-- The bin-matching loop of `CoverPoint.__call__` (coverage.py lines
369-378): walk the ordered bin map; on `rel result bin` increment that
bin's hit count and record it among the new hits; without the injection
flag stop at the first match, with it keep scanning.  Returns the updated
hit map and the `_new_hits` list (in match order). -/
def matchBins (rel : PyVal → PyVal → Bool) (inj : Bool) (result : PyVal) :
    List (PyVal × Nat) → List (PyVal × Nat) × List PyVal
  | [] => ([], [])
  | (b, h) :: rest =>
    if rel result b then
      if inj then
        let r := matchBins rel inj result rest
        ((b, h + 1) :: r.1, b :: r.2)
      else
        ((b, h + 1) :: rest, [b])
    else
      let r := matchBins rel inj result rest
      ((b, h) :: r.1, r.2)

/-- `self._hits[k] += 1` guarded by `k in self._hits`: increment the entry
with key `k` if present, otherwise leave the map unchanged. -/
def bumpHit (hits : List (PyVal × Nat)) (k : PyVal) : List (PyVal × Nat) :=
  hits.map (fun bh => if bh.1 = k then (bh.1, bh.2 + 1) else bh)

/-- `self._hits[k]` where the key is known to the caller; missing keys read
as 0 (never exercised: the keys looked up are always present). -/
def hitsOf (hits : List (PyVal × Nat)) (k : PyVal) : Nat :=
  match hits with
  | [] => 0
  | (b, h) :: rest => if b = k then h else hitsOf rest k

/-- Number of bins whose hit count is still below `at_least` — the bins
subtracted by the `coverage` properties of `CoverPoint` and `CoverCross`. -/
def unsatCount (atLeast : Nat) (hits : List (PyVal × Nat)) : Nat :=
  (hits.filter (fun bh => bh.2 < atLeast)).length

/-- The `coverage` property of each class: a plain `CoverItem` returns its
incrementally maintained `_coverage`; `CoverPoint.coverage` and
`CoverCross.coverage` (lines 392-398 and 516-522) return `_size` minus
`_weight` for every bin below `_at_least`; `CoverCheck.coverage` (lines
659-664) returns `_weight` exactly when the FAIL count is 0 and the PASS
count strictly exceeds `_at_least` (the code really uses `>`). -/
def RegNode.covProp (e : RegNode) : Int :=
  match e.kind with
  | .group => e.coverage
  | .point => (e.size : Int) - (e.weight : Int) * (unsatCount e.atLeast e.hits : Int)
  | .cross => (e.size : Int) - (e.weight : Int) * (unsatCount e.atLeast e.hits : Int)
  | .check =>
    if hitsOf e.hits (.str "FAIL") = 0 ∧ e.atLeast < hitsOf e.hits (.str "PASS") then
      (e.weight : Int)
    else 0

/-- The `detailed_coverage` property.  The leaf classes return their
`_hits` map.  A plain `CoverItem` (lines 199-212) builds `coverage = {}`
and then calls `coverage.append(child.detailed_coverage)` for each child —
but Python dicts have no `append` method, so with at least one child the
first loop iteration raises `AttributeError`; `none` models that raise. -/
def detailed_coverage (e : RegNode) : Option (List (PyVal × Nat)) :=
  match e.kind with
  | .group => if e.children.isEmpty then some [] else none
  | _ => some e.hits

/-- The `cover_percentage` property (lines 186-197): `100 * coverage /
size` with Python true division; `none` models the `ZeroDivisionError`
raised when `size` is 0. -/
def cover_percentage (coverage : Int) (size : Nat) : Option ℚ :=
  if size = 0 then none else some (100 * (coverage : ℚ) / (size : ℚ))

/-- The threshold-callback scan run by `CoverItem._update_coverage` (lines
100-104) after adding `delta` to `_coverage` (the identical scan appears at
the end of `CoverPoint.__call__`, `CoverCross.__call__` and
`CoverCheck.__call__`): a callback registered at percentage `ii` fires when
`ii > 100 * current / size` and `ii ≤ 100 * (current + delta) / size`.
Returns the new `_coverage` and the registered percentages that fire. -/
def update_coverage_fires (coverage : Int) (size : Nat) (thresholds : List ℚ)
    (delta : Int) : Int × List ℚ :=
  (coverage + delta,
   thresholds.filter (fun ii =>
     decide (100 * (coverage : ℚ) / (size : ℚ) < ii ∧
             ii ≤ 100 * ((coverage + delta : Int) : ℚ) / (size : ℚ))))

/-- `itertools.product`, rightmost factor varying fastest. -/
def pyProduct : List (List PyVal) → List (List PyVal)
  | [] => [[]]
  | l :: ls => (l.map (fun x => (pyProduct ls).map (fun r => x :: r))).flatten

/-- `dict.fromkeys` keeps the first occurrence of each key, in order. -/
def dedupFirst {α : Type} [DecidableEq α] (l : List α) : List α :=
  l.foldl (fun acc k => if k ∈ acc then acc else acc ++ [k]) []

/-- The inner ignore-bin test of `CoverCross.__init__` (lines 472-480):
`remove` stays true unless some position where the pattern is not `None`
differs from the cross-bin.  The Python loop indexes the pattern by the
positions of the cross-bin, so this is faithful whenever the pattern is at
least as long as the bin (patterns are tuples over the crossed items). -/
def removeFlag (pat : List (Option PyVal)) (x : List PyVal) : Bool :=
  (List.zip pat x).all (fun p =>
    match p.1 with
    | none => true
    | some v => decide (v = p.2))

/-- The cross-bin key set built by `CoverCross.__init__`: the Cartesian
product of the crossed points' bin keys (deduplicated by `dict.fromkeys`),
minus every tuple some ignore pattern removes. -/
def crossSurvivors (binsLists : List (List PyVal))
    (ignBins : List (List (Option PyVal))) : List (List PyVal) :=
  (dedupFirst (pyProduct binsLists)).filter
    (fun x => !(ignBins.any (fun pat => removeFlag pat x)))

/-- Python truthiness of the three-valued `passed` variable of
`CoverCheck.__call__` (`True`, `False` or `None`). -/
def pyTruthy : Option Bool → Bool
  | some b => b
  | none => false

/-- Python `not` on the same three-valued variable: `not None` is `True`,
which is what makes the `elif not passed:` branch of
`CoverCheck.__call__` treat an undetermined sample as a FAIL hit. -/
def pyNot : Option Bool → Bool
  | some b => !b
  | none => true

/-- Result of running a constructor: `ok db obj` is the registry after a
normal return together with the object the constructor expression
evaluates to; `exn msg db` is a raised exception together with the global
registry as the exception propagates (the registry mutation survives the
raise). -/
inductive RegResult where
  | ok : Registry → RegNode → RegResult
  | exn : String → Registry → RegResult

/-- The registry carried by a `RegResult`, whether or not it raised. -/
def RegResult.reg : RegResult → Registry
  | .ok db _ => db
  | .exn _ db => db

/-- `CoverPoint.__new__` + `CoverPoint.__init__` (lines 280-318).  If the
name is registered, `__new__` returns the existing instance and the
`__init__` body is skipped by its `if not name in coverage_db` guard — the
construction parameters of the second call are discarded.  Otherwise
`CoverItem.__init__` runs (inserting the node), the missing-parent check
may raise, and then the point fields are assigned: the default relation is
`operator.eq`; with a non-empty `bins` list `_size = weight * len(bins)`
and `_hits = dict.fromkeys(bins, 0)`, otherwise a single implicit `True`
bin of size `weight`; finally `_parent._update_size(_size)`. -/
def CoverPoint_register (db : Registry) (name : NodePath) (bins : List PyVal)
    (definedRel : Option (PyVal → PyVal → Bool)) (weight atLeast : Nat)
    (inj : Bool) : RegResult :=
  match dbLookup db name with
  | some e => .ok db e
  | none =>
    let db1 := CoverItem_init db name .point
    match dbLookup db1 name with
    | none => .exn "unreachable: CoverItem.__init__ always registers name" db1
    | some e0 =>
      if e0.parent = none then
        .exn "CoverPoint must have a parent (parent.CoverPoint)" db1
      else
        let sz := if bins.length ≠ 0 then weight * bins.length else weight
        let hs :=
          if bins.length ≠ 0 then (dedupFirst bins).map (fun b => (b, 0))
          else [(PyVal.bool true, 0)]
        let e1 := { e0 with
          rel := definedRel.getD (fun a b => decide (a = b))
          weight := weight
          atLeast := atLeast
          injection := inj
          size := sz
          hits := hs
          newHits := [] }
        .ok (update_size (dbSet db1 name e1) name sz) e1

/-- The `bins_lists` loop of `CoverCross.__init__` (lines 463-466): read
`coverage_db[cp_names].detailed_coverage.keys()` for each crossed item, in
order.  `none` models the exception Python would raise on the first item
that is missing from the registry (`KeyError`) or whose
`detailed_coverage` raises. -/
def collectBins (db : Registry) : List NodePath → Option (List (List PyVal))
  | [] => some []
  | i :: rest =>
    match dbLookup db i with
    | none => none
    | some e =>
      match detailed_coverage e with
      | none => none
      | some hs =>
        match collectBins db rest with
        | none => none
        | some bs => some (hs.map (fun bh => bh.1) :: bs)

/-- `CoverCross.__new__` + `CoverCross.__init__` (lines 445-483): identical
name guard and missing-parent check as `CoverPoint`; then the cross-bin
map is the Cartesian product of the items' bin keys minus the ignored
tuples, `_size = weight * len(_hits)`, and the parent sizes are updated. -/
def CoverCross_register (db : Registry) (name : NodePath) (items : List NodePath)
    (ignBins : List (List (Option PyVal))) (weight atLeast : Nat) : RegResult :=
  match dbLookup db name with
  | some e => .ok db e
  | none =>
    let db1 := CoverItem_init db name .cross
    match dbLookup db1 name with
    | none => .exn "unreachable: CoverItem.__init__ always registers name" db1
    | some e0 =>
      if e0.parent = none then
        .exn "CoverCross must have a parent (parent.CoverCross)" db1
      else
        match collectBins db1 items with
        | none => .exn "KeyError" db1
        | some binsLists =>
          let surv := crossSurvivors binsLists ignBins
          let sz := weight * surv.length
          let e1 := { e0 with
            weight := weight
            atLeast := atLeast
            items := items
            size := sz
            hits := surv.map (fun x => (PyVal.tup x, 0)) }
          .ok (update_size (dbSet db1 name e1) name sz) e1

/-- `CoverCheck.__new__` + `CoverCheck.__init__` (lines 562-587): identical
name guard and missing-parent check; the hit map has exactly the two keys
`"PASS"` and `"FAIL"` at 0, `_size = weight`, and the parent sizes are
updated by `weight`. -/
def CoverCheck_register (db : Registry) (name : NodePath) (fFail : PyVal → Bool)
    (fPass : Option (PyVal → Bool)) (weight atLeast : Nat) : RegResult :=
  match dbLookup db name with
  | some e => .ok db e
  | none =>
    let db1 := CoverItem_init db name .check
    match dbLookup db1 name with
    | none => .exn "unreachable: CoverItem.__init__ always registers name" db1
    | some e0 =>
      if e0.parent = none then
        .exn "CoverCheck must have a parent (parent.CoverCheck)" db1
      else
        let e1 := { e0 with
          weight := weight
          atLeast := atLeast
          fPass := fPass
          fFail := fFail
          size := weight
          hits := [(PyVal.str "PASS", 0), (PyVal.str "FAIL", 0)] }
        .ok (update_size (dbSet db1 name e1) name weight) e1

/-- One sampling event delivered by the instrumentation adapter (the
decorator machinery, out of scope per the specification): a `CoverPoint`
receives the extracted/transformed sample value, a `CoverCheck` receives
the value its predicates are applied to, and a `CoverCross` reads the
`_new_hits` of its items from the registry itself. -/
inductive Event where
  | samplePoint : NodePath → PyVal → Event
  | sampleCross : NodePath → Event
  | sampleCheck : NodePath → PyVal → Event

/-- The sampling body of `CoverPoint.__call__` (lines 358-387): remember
the current coverage, clear and rebuild `_new_hits` while incrementing the
matched bins, then propagate `coverage - current_coverage` to the
ancestors.  Events aimed at an unregistered name or an object of another
class cannot arise from the decorator machinery and are no-ops. -/
def point_call (db : Registry) (name : NodePath) (v : PyVal) : Registry :=
  match dbLookup db name with
  | none => db
  | some e =>
    if e.kind = .point then
      let current := e.covProp
      let m := matchBins e.rel e.injection v e.hits
      let e2 := { e with hits := m.1, newHits := m.2 }
      update_coverage (dbSet db name e2) name (e2.covProp - current)
    else db

/-- The sampling body of `CoverCross.__call__` (lines 487-511): form the
Cartesian product of the items' `_new_hits` lists as read from the
registry at this moment, increment every product tuple that is a surviving
cross-bin, then propagate the coverage delta. -/
def cross_call (db : Registry) (name : NodePath) : Registry :=
  match dbLookup db name with
  | none => db
  | some e =>
    if e.kind = .cross then
      let current := e.covProp
      let hitLists := e.items.map (fun i =>
        match dbLookup db i with
        | some p => p.newHits
        | none => [])
      let e2 := { e with
        hits := (pyProduct hitLists).foldl (fun hs x => bumpHit hs (.tup x)) e.hits }
      update_coverage (dbSet db name e2) name (e2.covProp - current)
    else db

/-- The sampling body of `CoverCheck.__call__` (lines 591-657).  `passed`
is three-valued: `some true` when the pass predicate holds, overridden to
`some false` when the fail predicate holds, `none` (undetermined) when
neither does.  A missing pass predicate counts as always-true (the
`dummy_f` default installed on first call). -/
def checkPassed (e : RegNode) (v : PyVal) : Option Bool :=
  let fp := match e.fPass with
    | some f => f v
    | none => true
  let passed0 : Option Bool := if fp then some true else none
  if e.fFail v then some false else passed0

/-- The hit-map update of `CoverCheck.__call__`: the literal branch
structure `if passed: PASS += 1 / elif not passed: FAIL += 1`, where
Python `not None` is `True`, so an undetermined sample increments FAIL. -/
def checkBump (e : RegNode) (passed : Option Bool) : RegNode :=
  if pyTruthy passed then { e with hits := bumpHit e.hits (.str "PASS") }
  else if pyNot passed then { e with hits := bumpHit e.hits (.str "FAIL") }
  else e

/-- The rest of the sampling body of `CoverCheck.__call__`: remember the
current coverage, update the hit map, and — only under `if passed is not
None` — propagate the coverage delta to the ancestors (the callback scans
guarded by the same test are modelled by `update_coverage_fires`). -/
def check_call (db : Registry) (name : NodePath) (v : PyVal) : Registry :=
  match dbLookup db name with
  | none => db
  | some e =>
    if e.kind = .check then
      let current := e.covProp
      let passed := checkPassed e v
      let e2 := checkBump e passed
      let db2 := dbSet db name e2
      if passed.isSome then update_coverage db2 name (e2.covProp - current) else db2
    else db

/-- Dispatch one sampling event. -/
def step (db : Registry) : Event → Registry
  | .samplePoint n v => point_call db n v
  | .sampleCross n => cross_call db n
  | .sampleCheck n v => check_call db n v

/-- Run a sequence of sampling events. -/
def run (db : Registry) : List Event → Registry
  | [] => db
  | ev :: rest => run (step db ev) rest

/-- No name is its own strict ancestor. -/
theorem strictPre_irrefl (n : NodePath) : strictPre n n = false := by
  simp [strictPre]



theorem dbLookup_cons (x : NodePath × RegNode) (l : Registry) (q : NodePath) :
    dbLookup (x :: l) q = if x.1 = q then some x.2 else dbLookup l q := rfl

theorem dbLookup_dbSet (db : Registry) (n : NodePath) (e : RegNode) (m : NodePath) :
    dbLookup (dbSet db n e) m = (dbLookup db m).map (fun x => if m = n then e else x) := by
  induction db with
  | nil => simp [dbLookup, dbSet]
  | cons p rest ih =>
    have hstep : dbSet (p :: rest) n e = (if p.1 = n then (p.1, e) else p) :: dbSet rest n e := rfl
    rw [hstep, dbLookup_cons, dbLookup_cons]
    by_cases h1 : p.1 = n
    · rw [if_pos h1]
      by_cases h2 : p.1 = m
      · have hmn : m = n := by rw [← h2, h1]
        simp [h2, hmn]
      · simp [h2, ih]
    · rw [if_neg h1]
      by_cases h2 : p.1 = m
      · have hmn : ¬ m = n := by rw [← h2]; exact h1
        simp [h2, hmn]
      · simp [h2, ih]

theorem dbLookup_update_coverage (db : Registry) (n : NodePath) (d : Int) (m : NodePath) :
    dbLookup (update_coverage db n d) m =
      (dbLookup db m).map
        (fun x => if strictPre m n then { x with coverage := x.coverage + d } else x) := by
  induction db with
  | nil => simp [dbLookup, update_coverage]
  | cons p rest ih =>
    have hstep : update_coverage (p :: rest) n d =
        (if strictPre p.1 n then (p.1, { p.2 with coverage := p.2.coverage + d }) else p)
          :: update_coverage rest n d := rfl
    rw [hstep]
    by_cases h1 : strictPre p.1 n = true
    · rw [if_pos h1, dbLookup_cons, dbLookup_cons]
      by_cases h2 : p.1 = m
      · have hm : strictPre m n = true := by rw [← h2]; exact h1
        simp [h2, hm]
      · simp [h2, ih]
    · rw [if_neg h1, dbLookup_cons, dbLookup_cons]
      by_cases h2 : p.1 = m
      · have hm : ¬ strictPre m n = true := by rw [← h2]; exact h1
        simp [h2, hm]
      · simp [h2, ih]

/-- Applying a zero coverage delta is invisible. -/
theorem update_coverage_zero (db : Registry) (n : NodePath) :
    update_coverage db n 0 = db := by
  induction db with
  | nil => rfl
  | cons p rest ih =>
    show (if strictPre p.1 n then (p.1, { p.2 with coverage := p.2.coverage + 0 }) else p)
        :: update_coverage rest n 0 = p :: rest
    rw [ih]
    congr 1
    split <;> simp

/-- After a leaf mutates itself (`dbSet`) and propagates a delta upward,
its own registry entry is exactly the mutated object (a node is never its
own strict ancestor). -/
theorem dbLookup_smear_self (db : Registry) (n : NodePath) (e2 : RegNode) (d : Int)
    (e : RegNode) (h : dbLookup db n = some e) :
    dbLookup (update_coverage (dbSet db n e2) n d) n = some e2 := by
  rw [dbLookup_update_coverage, dbLookup_dbSet, h]
  simp [strictPre_irrefl]

/-- After a leaf at `n` mutates itself and propagates a delta, every other
entry is unchanged except that strict ancestors of `n` gain the delta. -/
theorem dbLookup_smear_ne (db : Registry) (n : NodePath) (e2 : RegNode) (d : Int)
    (m : NodePath) (hm : ¬ m = n) (e : RegNode) (h : dbLookup db m = some e) :
    dbLookup (update_coverage (dbSet db n e2) n d) m =
      some (if strictPre m n then { e with coverage := e.coverage + d } else e) := by
  rw [dbLookup_update_coverage, dbLookup_dbSet, h]
  simp [hm]

/-- `bumpHit` never decreases any recorded hit count. -/
theorem hitsOf_bumpHit_le (hs : List (PyVal × Nat)) (k k2 : PyVal) :
    hitsOf hs k2 ≤ hitsOf (bumpHit hs k) k2 := by
  induction hs with
  | nil => simp [hitsOf, bumpHit]
  | cons bh rest ih =>
    have hstep : bumpHit (bh :: rest) k =
        (if bh.1 = k then (bh.1, bh.2 + 1) else bh) :: bumpHit rest k := rfl
    rw [hstep]
    by_cases h1 : bh.1 = k
    · rw [if_pos h1]
      by_cases h2 : bh.1 = k2 <;> simp [hitsOf, h2, ih]
    · rw [if_neg h1]
      by_cases h2 : bh.1 = k2 <;> simp [hitsOf, h2, ih]

/-- The name a sampling event is aimed at. -/
def Event.target : Event → NodePath
  | .samplePoint n _ => n
  | .sampleCross n => n
  | .sampleCheck n _ => n

theorem point_call_lookup_self (db : Registry) (n : NodePath) (v : PyVal) (e : RegNode)
    (h : dbLookup db n = some e) (hk : e.kind = .point) :
    dbLookup (point_call db n v) n =
      some { e with hits := (matchBins e.rel e.injection v e.hits).1,
                    newHits := (matchBins e.rel e.injection v e.hits).2 } := by
  unfold point_call
  rw [h]
  simp only [hk, if_pos rfl]
  exact dbLookup_smear_self db n _ _ e h

theorem cross_call_lookup_self (db : Registry) (n : NodePath) (e : RegNode)
    (h : dbLookup db n = some e) (hk : e.kind = .cross) :
    dbLookup (cross_call db n) n =
      some { e with hits := (pyProduct (e.items.map (fun i =>
        match dbLookup db i with
        | some p => p.newHits
        | none => []))).foldl (fun hs x => bumpHit hs (.tup x)) e.hits } := by
  unfold cross_call
  rw [h]
  simp only [hk, if_pos rfl]
  exact dbLookup_smear_self db n _ _ e h

theorem check_call_lookup_self (db : Registry) (n : NodePath) (v : PyVal) (e : RegNode)
    (h : dbLookup db n = some e) (hk : e.kind = .check) :
    dbLookup (check_call db n v) n = some (checkBump e (checkPassed e v)) := by
  unfold check_call
  rw [h]
  simp only [hk, if_pos rfl]
  by_cases hp : (checkPassed e v).isSome
  · simp only [hp, if_pos rfl]
    exact dbLookup_smear_self db n _ _ e h
  · simp only [hp, Bool.false_eq_true, if_false, if_true]
    rw [dbLookup_dbSet, h]
    simp

theorem dbLookup_smear_other_ex (db : Registry) (n : NodePath) (e2 : RegNode) (d : Int)
    (m : NodePath) (hm : ¬ m = n) (e : RegNode) (h : dbLookup db m = some e) :
    ∃ c, dbLookup (update_coverage (dbSet db n e2) n d) m = some { e with coverage := c } := by
  rw [dbLookup_smear_ne db n e2 d m hm e h]
  by_cases hsp : strictPre m n = true
  · rw [if_pos hsp]; exact ⟨_, rfl⟩
  · rw [if_neg hsp]; exact ⟨e.coverage, rfl⟩

/-- Any sampling event leaves the registry entry of every other name
unchanged except possibly for its incrementally maintained `_coverage`
field (strict ancestors of the sampled node receive the propagated
delta). -/
theorem step_lookup_other (db : Registry) (ev : Event) (m : NodePath)
    (hm : ¬ m = ev.target) (e : RegNode) (h : dbLookup db m = some e) :
    ∃ c, dbLookup (step db ev) m = some { e with coverage := c } := by
  cases ev with
  | samplePoint n v =>
    simp only [Event.target] at hm
    show ∃ c, dbLookup (point_call db n v) m = some _
    unfold point_call
    cases hn : dbLookup db n with
    | none => exact ⟨e.coverage, h⟩
    | some en =>
      by_cases hk : en.kind = .point
      · simp only [hk, if_pos rfl]
        exact dbLookup_smear_other_ex db n _ _ m hm e h
      · simp only [hk, Bool.false_eq_true, if_false]
        exact ⟨e.coverage, h⟩
  | sampleCross n =>
    simp only [Event.target] at hm
    show ∃ c, dbLookup (cross_call db n) m = some _
    unfold cross_call
    cases hn : dbLookup db n with
    | none => exact ⟨e.coverage, h⟩
    | some en =>
      by_cases hk : en.kind = .cross
      · simp only [hk, if_pos rfl]
        exact dbLookup_smear_other_ex db n _ _ m hm e h
      · simp only [hk, Bool.false_eq_true, if_false]
        exact ⟨e.coverage, h⟩
  | sampleCheck n v =>
    simp only [Event.target] at hm
    show ∃ c, dbLookup (check_call db n v) m = some _
    unfold check_call
    cases hn : dbLookup db n with
    | none => exact ⟨e.coverage, h⟩
    | some en =>
      by_cases hk : en.kind = .check
      · simp only [hk, if_pos rfl]
        by_cases hp : (checkPassed en v).isSome
        · simp only [hp, if_pos rfl]
          exact dbLookup_smear_other_ex db n _ _ m hm e h
        · simp only [hp, Bool.false_eq_true, if_false, if_true]
          refine ⟨e.coverage, ?_⟩
          rw [dbLookup_dbSet, h]
          simp [hm]
      · simp only [hk, Bool.false_eq_true, if_false]
        exact ⟨e.coverage, h⟩

/-- `checkBump` never changes anything but the hit map. -/
theorem checkBump_shape (e : RegNode) (p : Option Bool) :
    (checkBump e p).kind = e.kind ∧ (checkBump e p).weight = e.weight ∧
      (checkBump e p).atLeast = e.atLeast := by
  unfold checkBump
  split
  · exact ⟨rfl, rfl, rfl⟩
  · split
    · exact ⟨rfl, rfl, rfl⟩
    · exact ⟨rfl, rfl, rfl⟩

/-- `checkBump` never decreases a hit count. -/
theorem checkBump_hits_mono (e : RegNode) (p : Option Bool) (k : PyVal) :
    hitsOf e.hits k ≤ hitsOf (checkBump e p).hits k := by
  unfold checkBump
  split
  · exact hitsOf_bumpHit_le _ _ _
  · split
    · exact hitsOf_bumpHit_le _ _ _
    · exact le_refl _

/-- Once a `CoverCheck` has a nonzero FAIL count, any further sampling
event anywhere in the registry keeps its class, weight and `at_least`
intact, keeps its FAIL count nonzero, and never decreases its PASS
count. -/
theorem step_latched (db : Registry) (ev : Event) (n : NodePath) (e : RegNode)
    (h : dbLookup db n = some e) (hk : e.kind = .check)
    (hf : 0 < hitsOf e.hits (.str "FAIL")) :
    ∃ e2, dbLookup (step db ev) n = some e2 ∧ e2.kind = .check ∧
      e2.weight = e.weight ∧ e2.atLeast = e.atLeast ∧
      0 < hitsOf e2.hits (.str "FAIL") ∧
      hitsOf e.hits (.str "PASS") ≤ hitsOf e2.hits (.str "PASS") := by
  by_cases hm : n = ev.target
  case neg =>
    obtain ⟨c, hc⟩ := step_lookup_other db ev n hm e h
    exact ⟨_, hc, hk, rfl, rfl, hf, le_refl _⟩
  case pos =>
    have hnotp : e.kind = NodeKind.point ↔ False := by rw [hk]; simp
    have hnotx : e.kind = NodeKind.cross ↔ False := by rw [hk]; simp
    cases ev with
    | samplePoint t v =>
      simp only [Event.target] at hm
      subst hm
      simp only [step, point_call, h, hnotp, if_false]
      exact ⟨e, rfl, hk, rfl, rfl, hf, le_refl _⟩
    | sampleCross t =>
      simp only [Event.target] at hm
      subst hm
      simp only [step, cross_call, h, hnotx, if_false]
      exact ⟨e, rfl, hk, rfl, rfl, hf, le_refl _⟩
    | sampleCheck t v =>
      simp only [Event.target] at hm
      subst hm
      have hsel := check_call_lookup_self db n v e h hk
      obtain ⟨hbk, hbw, hba⟩ := checkBump_shape e (checkPassed e v)
      refine ⟨_, hsel, hbk.trans hk, hbw, hba, ?_, checkBump_hits_mono e _ _⟩
      exact lt_of_lt_of_le hf (checkBump_hits_mono e _ _)

/-- `step_latched` extended over an arbitrary sequence of later events. -/
theorem run_latched (evs : List Event) (db : Registry) (n : NodePath) (e : RegNode)
    (h : dbLookup db n = some e) (hk : e.kind = .check)
    (hf : 0 < hitsOf e.hits (.str "FAIL")) :
    ∃ e2, dbLookup (run db evs) n = some e2 ∧ e2.kind = .check ∧
      e2.weight = e.weight ∧ e2.atLeast = e.atLeast ∧
      0 < hitsOf e2.hits (.str "FAIL") ∧
      hitsOf e.hits (.str "PASS") ≤ hitsOf e2.hits (.str "PASS") := by
  induction evs generalizing db e with
  | nil => exact ⟨e, h, hk, rfl, rfl, hf, le_refl _⟩
  | cons ev rest ih =>
    obtain ⟨e1, h1, hk1, hw1, ha1, hf1, hp1⟩ := step_latched db ev n e h hk hf
    obtain ⟨e2, h2, hk2, hw2, ha2, hf2, hp2⟩ := ih (step db ev) e1 h1 hk1 hf1
    exact ⟨e2, h2, hk2, hw1 ▸ hw2, ha1 ▸ ha2, hf2, le_trans hp1 hp2⟩

/-- A `CoverCheck` with a recorded FAIL reports coverage 0
(`CoverCheck.coverage`, lines 659-664). -/
theorem check_covProp_latched (e : RegNode) (hk : e.kind = .check)
    (hf : 0 < hitsOf e.hits (.str "FAIL")) : e.covProp = 0 := by
  have hne : ¬(hitsOf e.hits (.str "FAIL") = 0 ∧
      e.atLeast < hitsOf e.hits (.str "PASS")) := by
    intro hcon
    omega
  simp only [RegNode.covProp, hk, hne, if_false]

theorem run_append (db : Registry) (l1 l2 : List Event) :
    run db (l1 ++ l2) = run (run db l1) l2 := by
  induction l1 generalizing db with
  | nil => rfl
  | cons ev rest ih => exact ih (step db ev)

/-- The fail predicate of the specification scenario: `lambda x: x == 0`. -/
def c2_f_fail : PyVal → Bool := fun v => decide (v = .int 0)

/-- The pass predicate of the specification scenario: `lambda x: x < 5`. -/
def c2_f_pass : PyVal → Bool := fun v =>
  match v with
  | .int m => decide (m < 5)
  | _ => false

/-- The path of the scenario check node. -/
def c2_path : NodePath := ["top", "check"]

/-- The registry after `CoverCheck(name="top.check", f_fail=(x==0),
f_pass=(x<5), weight=w, at_least=1)` on an empty registry. -/
def c2_db0 (w : Nat) : Registry :=
  (CoverCheck_register [] c2_path c2_f_fail (some c2_f_pass) w 1).reg

/-- The scenario check node with the given PASS and FAIL hit counts. -/
def c2_node (w pass fail : Nat) : RegNode :=
  { kind := .check
    parent := some ["top"]
    children := []
    size := w
    coverage := 0
    hits := [(.str "PASS", pass), (.str "FAIL", fail)]
    weight := w
    atLeast := 1
    injection := false
    rel := fun a b => decide (a = b)
    fPass := some c2_f_pass
    fFail := c2_f_fail
    items := []
    newHits := [] }

theorem c2_db0_lookup (w : Nat) : dbLookup (c2_db0 w) c2_path = some (c2_node w 0 0) := rfl

/-- One sample of value 3: the pass predicate holds, the fail predicate
does not, so the PASS bin is incremented. -/
theorem c2_bump_pass (w p f : Nat) :
    checkBump (c2_node w p f) (checkPassed (c2_node w p f) (.int 3)) =
      c2_node w (p + 1) f := rfl

/-- One sample of value 0: the fail predicate holds, so the FAIL bin is
incremented. -/
theorem c2_bump_fail (w p f : Nat) :
    checkBump (c2_node w p f) (checkPassed (c2_node w p f) (.int 0)) =
      c2_node w p (f + 1) := rfl

theorem c2_lookup_after3 (w : Nat) :
    dbLookup (run (c2_db0 w)
      [.sampleCheck c2_path (.int 3), .sampleCheck c2_path (.int 3),
       .sampleCheck c2_path (.int 3)]) c2_path = some (c2_node w 3 0) := by
  have h0 := c2_db0_lookup w
  have h1 := check_call_lookup_self _ c2_path (.int 3) _ h0 rfl
  rw [c2_bump_pass] at h1
  have h2 := check_call_lookup_self _ c2_path (.int 3) _ h1 rfl
  rw [c2_bump_pass] at h2
  have h3 := check_call_lookup_self _ c2_path (.int 3) _ h2 rfl
  rw [c2_bump_pass] at h3
  exact h3

theorem c2_lookup_after_fail (w : Nat) :
    dbLookup (run (c2_db0 w)
      [.sampleCheck c2_path (.int 3), .sampleCheck c2_path (.int 3),
       .sampleCheck c2_path (.int 3), .sampleCheck c2_path (.int 0)]) c2_path =
      some (c2_node w 3 1) := by
  have h3 : dbLookup (run (c2_db0 w)
      [.sampleCheck c2_path (.int 3), .sampleCheck c2_path (.int 3),
       .sampleCheck c2_path (.int 3)]) c2_path = some (c2_node w 3 0) :=
    c2_lookup_after3 w
  have h4 := check_call_lookup_self _ c2_path (.int 0) _ h3 rfl
  rw [c2_bump_fail] at h4
  exact h4

/-- C2: with `f_fail = (x == 0)`, `f_pass = (x < 5)` and `at_least = 1`,
the three samples 3, 3, 3 leave the check's coverage at `weight`; one
further sample 0 drops it to 0; and it stays 0 after every further
sequence of sampling events (until the registry is reset), even though the
PASS hit count stays at or above `at_least`. -/
theorem c2_check_fail_latch (w : Nat) (future : List Event) :
    (dbLookup (run (c2_db0 w)
        [.sampleCheck c2_path (.int 3), .sampleCheck c2_path (.int 3),
         .sampleCheck c2_path (.int 3)]) c2_path).map RegNode.covProp =
      some (w : Int) ∧
    (dbLookup (run (c2_db0 w)
        [.sampleCheck c2_path (.int 3), .sampleCheck c2_path (.int 3),
         .sampleCheck c2_path (.int 3), .sampleCheck c2_path (.int 0)]) c2_path).map
      RegNode.covProp = some 0 ∧
    (dbLookup (run (c2_db0 w)
        ([.sampleCheck c2_path (.int 3), .sampleCheck c2_path (.int 3),
          .sampleCheck c2_path (.int 3), .sampleCheck c2_path (.int 0)] ++ future))
        c2_path).map
      (fun e => (e.covProp, decide (e.atLeast ≤ hitsOf e.hits (.str "PASS")))) =
      some (0, true) := by
  refine ⟨?_, ?_, ?_⟩
  · rw [c2_lookup_after3 w]
    rfl
  · rw [c2_lookup_after_fail w]
    rfl
  · rw [run_append]
    obtain ⟨e2, h2, hk2, hw2, ha2, hf2, hp2⟩ :=
      run_latched future _ c2_path (c2_node w 3 1) (c2_lookup_after_fail w) rfl
        (by simp [c2_node, hitsOf])
    rw [h2]
    have hcov : e2.covProp = 0 := check_covProp_latched e2 hk2 hf2
    have hpass : e2.atLeast ≤ hitsOf e2.hits (.str "PASS") := by
      have h3 : hitsOf (c2_node w 3 1).hits (.str "PASS") = 3 := rfl
      have ha : (c2_node w 3 1).atLeast = 1 := rfl
      rw [ha2]
      omega
    simp [hcov, hpass]

/-- C1 (evidence): with `f_fail = (x == 0)` and `f_pass = (x < 5)`, the
sample 7 satisfies neither predicate, so `passed` stays `None` — yet the
code increments the FAIL bin, because `elif not passed:` is taken when
`passed is None` (`not None` is `True` in Python).  No coverage update
reaches the parent and the PASS bin is untouched, but the hit maps show
`FAIL = 1` — contradicting both the specification (an indeterminate
sample increments no bin) and the class docstring (the check is 100%
covered when `x < 5` was sampled and `x == 0` never was: a later passing
sample can no longer make this check covered). -/
theorem c1_indeterminate_sample_hits_fail :
    (dbLookup (step (c2_db0 1) (.sampleCheck c2_path (.int 7))) c2_path).map
        (fun e => (hitsOf e.hits (.str "PASS"), hitsOf e.hits (.str "FAIL"))) =
      some (0, 1) ∧
    (dbLookup (step (c2_db0 1) (.sampleCheck c2_path (.int 7))) ["top"]).map
      (fun e => e.coverage) = some 0 ∧
    checkPassed (c2_node 1 0 0) (.int 7) = none := by
  refine ⟨rfl, rfl, rfl⟩

/-- C3 (evidence): with `at_least = 1`, after exactly one passing sample
the PASS count equals `at_least` and FAIL is 0, yet `CoverCheck.coverage`
is 0 rather than `weight` (here 1), because line 662 tests
`self._hits["PASS"] > self._at_least` strictly — contradicting the
docstring "the number of hits of the `f_pass` function to consider a
particular `CoverCheck` as covered". -/
theorem c3_pass_at_least_not_covered :
    (dbLookup (step (c2_db0 1) (.sampleCheck c2_path (.int 3))) c2_path).map
        (fun e => (hitsOf e.hits (.str "PASS"), hitsOf e.hits (.str "FAIL"),
                   e.atLeast, e.weight, e.covProp)) =
      some (1, 0, 1, 1, 0) := rfl

/-- C5 (evidence): reading `detailed_coverage` on a grouping `CoverItem`
with a child raises `AttributeError` (modelled as `none`), because line
211 calls `coverage.append(...)` on the dict `coverage = {}` — Python
dicts have no `append` method.  Here the group `"top"` has the child
`"top.check"`. -/
theorem c5_group_detailed_coverage_raises :
    (dbLookup (c2_db0 1) ["top"]).map
      (fun e => (e.kind = NodeKind.group, e.children ≠ [], detailed_coverage e)) =
      some (True, True, none) := by
  simp [c2_db0, CoverCheck_register, CoverItem_init, CoverItem_initAux, c2_path,
    dbLookup, dbAssign, dbSet, update_size, initNode, detailed_coverage, strictPre, isPre]

/-- Paths of the C8 scenario: two points and a cross under `"top"`. -/
def c8_a : NodePath := ["top", "a"]

def c8_b : NodePath := ["top", "b"]

def c8_x : NodePath := ["top", "x"]

/-- Registry after registering `CoverPoint("top.a", bins=[1,2])`,
`CoverPoint("top.b", bins=[1,2])` and `CoverCross("top.x",
items=["top.a","top.b"], ign_bins=[(1,1)], weight=w)`. -/
def c8_db0 (w : Nat) : Registry :=
  (CoverCross_register
    (CoverPoint_register
      (CoverPoint_register [] c8_a [.int 1, .int 2] none 1 1 false).reg
      c8_b [.int 1, .int 2] none 1 1 false).reg
    c8_x [c8_a, c8_b] [[some (.int 1), some (.int 1)]] w 1).reg

/-- A C8 point node with given per-bin hit counts and last-hit list. -/
def c8_point (h1 h2 : Nat) (nh : List PyVal) : RegNode :=
  { kind := .point
    parent := some ["top"]
    children := []
    size := 2
    coverage := 0
    hits := [(.int 1, h1), (.int 2, h2)]
    weight := 1
    atLeast := 1
    injection := false
    rel := fun a b => decide (a = b)
    fPass := none
    fFail := fun _ => false
    items := []
    newHits := nh }

/-- The C8 cross node: the ignore pattern `(1,1)` removed one of the four
product tuples, leaving three cross-bins. -/
def c8_cross (w : Nat) (h12 h21 h22 : Nat) : RegNode :=
  { kind := .cross
    parent := some ["top"]
    children := []
    size := w * 3
    coverage := 0
    hits := [(.tup [.int 1, .int 2], h12), (.tup [.int 2, .int 1], h21),
             (.tup [.int 2, .int 2], h22)]
    weight := w
    atLeast := 1
    injection := false
    rel := fun a b => decide (a = b)
    fPass := none
    fFail := fun _ => false
    items := [c8_a, c8_b]
    newHits := [] }

theorem c8_db0_lookup_a (w : Nat) :
    dbLookup (c8_db0 w) c8_a = some (c8_point 0 0 []) := rfl

theorem c8_db0_lookup_b (w : Nat) :
    dbLookup (c8_db0 w) c8_b = some (c8_point 0 0 []) := rfl

theorem c8_db0_lookup_x (w : Nat) :
    dbLookup (c8_db0 w) c8_x = some (c8_cross w 0 0 0) := rfl

/-- Matching the sample value 2 against the bins `[1, 2]` with the default
equality relation and no injection hits exactly the bin 2. -/
theorem c8_matchBins (h1 h2 : Nat) (nh : List PyVal) :
    matchBins (c8_point h1 h2 nh).rel (c8_point h1 h2 nh).injection (.int 2)
        (c8_point h1 h2 nh).hits = ([(.int 1, h1), (.int 2, h2 + 1)], [.int 2]) := rfl

/-- A point sample leaves any node that is neither the sampled point nor
one of its strict ancestors completely unchanged. -/
theorem point_call_lookup_other (db : Registry) (n : NodePath) (v : PyVal)
    (m : NodePath) (hm : ¬ m = n) (hsp : strictPre m n = false)
    (e : RegNode) (he : dbLookup db m = some e) :
    dbLookup (point_call db n v) m = some e := by
  unfold point_call
  cases hn : dbLookup db n with
  | none => exact he
  | some en =>
    by_cases hk : en.kind = .point
    · simp only [hk, if_true, if_pos]
      rw [dbLookup_smear_ne db n _ _ m hm e he]
      simp [hsp]
    · simp only [hk, Bool.false_eq_true, if_false]
      exact he

theorem c8_lookup_a_after1 (w : Nat) :
    dbLookup (step (c8_db0 w) (.samplePoint c8_a (.int 2))) c8_a =
      some (c8_point 0 1 [.int 2]) :=
  point_call_lookup_self _ c8_a (.int 2) _ (c8_db0_lookup_a w) rfl

theorem c8_lookup_b_after1 (w : Nat) :
    dbLookup (step (c8_db0 w) (.samplePoint c8_a (.int 2))) c8_b =
      some (c8_point 0 0 []) :=
  point_call_lookup_other _ c8_a (.int 2) c8_b (by decide) (by decide) _
    (c8_db0_lookup_b w)

theorem c8_lookup_x_after1 (w : Nat) :
    dbLookup (step (c8_db0 w) (.samplePoint c8_a (.int 2))) c8_x =
      some (c8_cross w 0 0 0) :=
  point_call_lookup_other _ c8_a (.int 2) c8_x (by decide) (by decide) _
    (c8_db0_lookup_x w)

theorem c8_lookup_a_after2 (w : Nat) :
    dbLookup (run (c8_db0 w)
      [.samplePoint c8_a (.int 2), .samplePoint c8_b (.int 2)]) c8_a =
      some (c8_point 0 1 [.int 2]) :=
  point_call_lookup_other _ c8_b (.int 2) c8_a (by decide) (by decide) _
    (c8_lookup_a_after1 w)

theorem c8_lookup_b_after2 (w : Nat) :
    dbLookup (run (c8_db0 w)
      [.samplePoint c8_a (.int 2), .samplePoint c8_b (.int 2)]) c8_b =
      some (c8_point 0 1 [.int 2]) :=
  point_call_lookup_self _ c8_b (.int 2) _ (c8_lookup_b_after1 w) rfl

theorem c8_lookup_x_after2 (w : Nat) :
    dbLookup (run (c8_db0 w)
      [.samplePoint c8_a (.int 2), .samplePoint c8_b (.int 2)]) c8_x =
      some (c8_cross w 0 0 0) :=
  point_call_lookup_other _ c8_b (.int 2) c8_x (by decide) (by decide) _
    (c8_lookup_x_after1 w)

/-- Sampling the cross in the same call reads the two points' `_new_hits`
lists `[2]` and `[2]` and increments the surviving cross-bin `(2, 2)`. -/
theorem c8_lookup_x_after3 (w : Nat) :
    dbLookup (run (c8_db0 w)
      [.samplePoint c8_a (.int 2), .samplePoint c8_b (.int 2), .sampleCross c8_x]) c8_x =
      some (c8_cross w 0 0 1) := by
  have hx := cross_call_lookup_self _ c8_x _ (c8_lookup_x_after2 w) rfl
  rw [show (c8_cross w 0 0 0).items = [c8_a, c8_b] from rfl] at hx
  simp only [List.map_cons, List.map_nil, c8_lookup_a_after2 w, c8_lookup_b_after2 w] at hx
  exact hx

/-- C8: for the cross over two points with bins `{1,2} × {1,2}` and
`ign_bins = [(1,1)]`, exactly 3 cross-bins survive and the size is
`3 × weight`; sampling both points with value 2 leaves last-hit lists
`[2]` and `[2]`, and sampling the cross in the same call increments the
`(2,2)` cross-bin hit count from 0 to 1. -/
theorem c8_cross_ignore_and_hit (w : Nat) :
    (dbLookup (c8_db0 w) c8_x).map (fun e => (e.hits.length, e.size)) =
      some (3, w * 3) ∧
    (dbLookup (run (c8_db0 w)
        [.samplePoint c8_a (.int 2), .samplePoint c8_b (.int 2)]) c8_a).map
      (fun e => e.newHits) = some [.int 2] ∧
    (dbLookup (run (c8_db0 w)
        [.samplePoint c8_a (.int 2), .samplePoint c8_b (.int 2)]) c8_b).map
      (fun e => e.newHits) = some [.int 2] ∧
    (dbLookup (run (c8_db0 w)
        [.samplePoint c8_a (.int 2), .samplePoint c8_b (.int 2)]) c8_x).map
      (fun e => hitsOf e.hits (.tup [.int 2, .int 2])) = some 0 ∧
    (dbLookup (run (c8_db0 w)
        [.samplePoint c8_a (.int 2), .samplePoint c8_b (.int 2), .sampleCross c8_x])
        c8_x).map
      (fun e => hitsOf e.hits (.tup [.int 2, .int 2])) = some 1 := by
  refine ⟨?_, ?_, ?_, ?_, ?_⟩
  · rw [c8_db0_lookup_x w]; rfl
  · rw [c8_lookup_a_after2 w]; rfl
  · rw [c8_lookup_b_after2 w]; rfl
  · rw [c8_lookup_x_after2 w]; rfl
  · rw [c8_lookup_x_after3 w]; rfl

/-- C6: on a node of size 4 with one threshold callback registered at 50,
the delta that moves `_coverage` from 1 to 2 (25% to 50%) fires the
callback — `50 > 100*1/4` and `50 ≤ 100*2/4` — and it is the only
registered callback, so it fires exactly once; the next delta, moving
coverage from 2 to 3, fires nothing because `50 > 100*2/4` is false. -/
theorem c6_threshold_fires_once :
    update_coverage_fires 1 4 [50] 1 = (2, [50]) ∧
    update_coverage_fires 2 4 [50] 1 = (3, []) := by
  constructor <;> norm_num [update_coverage_fires, List.filter]

/-- C7: constructing any of the three primitives under a name that is
already registered returns the existing instance unchanged — the whole
registry (hence the node's own size and every ancestor's size) is
untouched and every construction parameter of the second call is
ignored. -/
theorem c7_reregistration_identity (db : Registry) (name : NodePath) (e : RegNode)
    (h : dbLookup db name = some e)
    (bins : List PyVal) (definedRel : Option (PyVal → PyVal → Bool))
    (w1 al1 : Nat) (inj : Bool)
    (items : List NodePath) (ignBins : List (List (Option PyVal))) (w2 al2 : Nat)
    (fFail : PyVal → Bool) (fPass : Option (PyVal → Bool)) (w3 al3 : Nat) :
    CoverPoint_register db name bins definedRel w1 al1 inj = .ok db e ∧
    CoverCross_register db name items ignBins w2 al2 = .ok db e ∧
    CoverCheck_register db name fFail fPass w3 al3 = .ok db e := by
  unfold CoverPoint_register CoverCross_register CoverCheck_register
  rw [h]
  exact ⟨rfl, rfl, rfl⟩

theorem c7_reregistration_identity_witness :
    dbLookup (c2_db0 1) c2_path = some (c2_node 1 0 0) ∧
    (CoverPoint_register (c2_db0 1) c2_path [.int 9] none 7 7 true =
        .ok (c2_db0 1) (c2_node 1 0 0) ∧
      CoverCross_register (c2_db0 1) c2_path [] [] 7 7 =
        .ok (c2_db0 1) (c2_node 1 0 0) ∧
      CoverCheck_register (c2_db0 1) c2_path c2_f_fail none 7 7 =
        .ok (c2_db0 1) (c2_node 1 0 0)) :=
  ⟨c2_db0_lookup 1,
   c7_reregistration_identity (c2_db0 1) c2_path (c2_node 1 0 0) (c2_db0_lookup 1)
     [.int 9] none 7 7 true [] [] 7 7 c2_f_fail none 7 7⟩

theorem dbLookup_append_last (db : Registry) (n : NodePath) (e : RegNode)
    (h : dbLookup db n = none) :
    dbLookup (db ++ [(n, e)]) n = some e := by
  induction db with
  | nil => simp [dbLookup]
  | cons p rest ih =>
    rw [List.cons_append, dbLookup_cons]
    rw [dbLookup_cons] at h
    by_cases h1 : p.1 = n
    · rw [if_pos h1] at h
      exact absurd h (by simp)
    · rw [if_neg h1] at h
      rw [if_neg h1]
      exact ih h

/-- C9: registering a `CoverPoint`, `CoverCross` or `CoverCheck` under a
fresh single-segment name (no dot-separated parent segment) raises the
missing-parent exception, but the partially initialized node has already
been stored in `coverage_db` by `CoverItem.__init__` (line 90 runs before
the parent check of the subclass constructor), so the raise leaves the
registry mutated: the name now resolves to the half-built node. -/
theorem c9_registry_mutated_on_missing_parent (db : Registry) (s : String)
    (h : dbLookup db [s] = none)
    (bins : List PyVal) (definedRel : Option (PyVal → PyVal → Bool))
    (w1 al1 : Nat) (inj : Bool)
    (items : List NodePath) (ignBins : List (List (Option PyVal))) (w2 al2 : Nat)
    (fFail : PyVal → Bool) (fPass : Option (PyVal → Bool)) (w3 al3 : Nat) :
    (CoverPoint_register db [s] bins definedRel w1 al1 inj =
        .exn "CoverPoint must have a parent (parent.CoverPoint)"
          (db ++ [([s], initNode .point none)]) ∧
      dbLookup (db ++ [([s], initNode .point none)]) [s] =
        some (initNode .point none)) ∧
    (CoverCross_register db [s] items ignBins w2 al2 =
        .exn "CoverCross must have a parent (parent.CoverCross)"
          (db ++ [([s], initNode .cross none)]) ∧
      dbLookup (db ++ [([s], initNode .cross none)]) [s] =
        some (initNode .cross none)) ∧
    (CoverCheck_register db [s] fFail fPass w3 al3 =
        .exn "CoverCheck must have a parent (parent.CoverCheck)"
          (db ++ [([s], initNode .check none)]) ∧
      dbLookup (db ++ [([s], initNode .check none)]) [s] =
        some (initNode .check none)) := by
  have hinit : ∀ k : NodeKind, CoverItem_init db [s] k = db ++ [([s], initNode k none)] := by
    intro k
    show dbAssign db [s] (initNode k none) = _
    unfold dbAssign
    rw [h]
    rfl
  have happ : ∀ k : NodeKind,
      dbLookup (db ++ [([s], initNode k none)]) [s] = some (initNode k none) :=
    fun k => dbLookup_append_last db [s] _ h
  refine ⟨⟨?_, happ .point⟩, ⟨?_, happ .cross⟩, ⟨?_, happ .check⟩⟩
  · unfold CoverPoint_register
    rw [h, hinit .point]
    simp only [happ]
    rfl
  · unfold CoverCross_register
    rw [h, hinit .cross]
    simp only [happ]
    rfl
  · unfold CoverCheck_register
    rw [h, hinit .check]
    simp only [happ]
    rfl

theorem c9_registry_mutated_witness :
    dbLookup [] ["solo"] = none ∧
    CoverPoint_register [] ["solo"] [.int 1] none 1 1 false =
      .exn "CoverPoint must have a parent (parent.CoverPoint)"
        [(["solo"], initNode .point none)] ∧
    dbLookup [(["solo"], initNode .point none)] ["solo"] = some (initNode .point none) :=
  ⟨rfl,
   ((c9_registry_mutated_on_missing_parent [] "solo" rfl [.int 1] none 1 1 false
      [] [] 1 1 c2_f_fail none 1 1).1.1),
   ((c9_registry_mutated_on_missing_parent [] "solo" rfl [.int 1] none 1 1 false
      [] [] 1 1 c2_f_fail none 1 1).1.2)⟩

/-- An ignore pattern consisting entirely of `None` wildcards never sets
`remove = False`, so it matches every cross-bin. -/
theorem removeFlag_replicate (k : Nat) (x : List PyVal) :
    removeFlag (List.replicate k none) x = true := by
  induction x generalizing k with
  | nil => cases k <;> simp [removeFlag]
  | cons a t ih =>
    cases k with
    | zero => simp [removeFlag]
    | succ k2 =>
      have h2 := ih k2
      simp [removeFlag, List.replicate_succ, List.zip_cons_cons] at h2 ⊢
      exact h2

theorem filter_false_eq_nil {α : Type} (p : α → Bool) (h : ∀ x, p x = false)
    (l : List α) : l.filter p = [] := by
  induction l with
  | nil => rfl
  | cons a t ih => simp [List.filter_cons, h a, ih]

/-- With a single all-wildcard ignore pattern every product tuple is
removed. -/
theorem crossSurvivors_all_wildcard (binsLists : List (List PyVal)) (k : Nat) :
    crossSurvivors binsLists [List.replicate k none] = [] := by
  unfold crossSurvivors
  apply filter_false_eq_nil
  intro x
  simp [removeFlag_replicate]

/-- C10: a `CoverCross` constructed with an ignore pattern of only `None`
wildcards (one wildcard per crossed item) loses every cross-bin: the hit
map is empty and the size is 0, so any later read of `cover_percentage`
on the node divides by zero and raises (`none`). -/
theorem c10_all_wildcard_ignore (db : Registry) (name : NodePath)
    (items : List NodePath) (w al : Nat) (db2 : Registry) (nd : RegNode)
    (h0 : dbLookup db name = none)
    (hok : CoverCross_register db name items [List.replicate items.length none] w al =
      .ok db2 nd) :
    nd.hits = [] ∧ nd.size = 0 ∧ cover_percentage nd.covProp nd.size = none := by
  unfold CoverCross_register at hok
  rw [h0] at hok
  simp only [] at hok
  cases hlk : dbLookup (CoverItem_init db name .cross) name with
  | none =>
    rw [hlk] at hok
    exact absurd hok (by simp)
  | some e0 =>
    rw [hlk] at hok
    simp only [] at hok
    by_cases hpar : e0.parent = none
    · rw [if_pos hpar] at hok
      exact absurd hok (by simp)
    · rw [if_neg hpar] at hok
      cases hcb : collectBins (CoverItem_init db name .cross) items with
      | none =>
        rw [hcb] at hok
        exact absurd hok (by simp)
      | some binsLists =>
        rw [hcb] at hok
        simp only [crossSurvivors_all_wildcard binsLists items.length] at hok
        have hnd : nd = { e0 with
            weight := w
            atLeast := al
            items := items
            size := w * List.length ([] : List (List PyVal))
            hits := ([] : List (List PyVal)).map (fun x => (PyVal.tup x, 0)) } := by
          cases hok
          rfl
        subst hnd
        refine ⟨rfl, by simp, ?_⟩
        simp [cover_percentage]

/-- Registry with one point `"top.a"` (bins `[1, 2]`), used to instantiate
the all-wildcard scenario. -/
def c10_db : Registry :=
  (CoverPoint_register [] ["top", "a"] [.int 1, .int 2] none 1 1 false).reg

/-- The cross node produced by the all-wildcard registration: no
cross-bins, size 0. -/
def c10w_nd : RegNode :=
  { kind := .cross
    parent := some ["top"]
    children := []
    size := 0
    coverage := 0
    hits := []
    weight := 1
    atLeast := 1
    injection := false
    rel := fun a b => decide (a = b)
    fPass := none
    fFail := fun _ => false
    items := [["top", "a"]]
    newHits := [] }

/-- The registry after the all-wildcard cross registration. -/
def c10w_db2 : Registry :=
  [(["top"],
    { kind := .group
      parent := none
      children := [["top", "a"], ["top", "x"]]
      size := 2
      coverage := 0
      hits := []
      weight := 1
      atLeast := 1
      injection := false
      rel := fun a b => decide (a = b)
      fPass := none
      fFail := fun _ => false
      items := []
      newHits := [] }),
   (["top", "a"],
    { kind := .point
      parent := some ["top"]
      children := []
      size := 2
      coverage := 0
      hits := [(.int 1, 0), (.int 2, 0)]
      weight := 1
      atLeast := 1
      injection := false
      rel := fun a b => decide (a = b)
      fPass := none
      fFail := fun _ => false
      items := []
      newHits := [] }),
   (["top", "x"], c10w_nd)]

theorem c10_all_wildcard_witness :
    dbLookup c10_db ["top", "x"] = none ∧
    CoverCross_register c10_db ["top", "x"] [["top", "a"]]
        [List.replicate ([["top", "a"]] : List NodePath).length none] 1 1 =
      .ok c10w_db2 c10w_nd ∧
    (c10w_nd.hits = [] ∧ c10w_nd.size = 0 ∧
      cover_percentage c10w_nd.covProp c10w_nd.size = none) :=
  ⟨rfl, rfl,
   c10_all_wildcard_ignore c10_db ["top", "x"] [["top", "a"]] 1 1 c10w_db2 c10w_nd
     rfl rfl⟩

/-- The capacity a node can ever report upward through coverage deltas:
nothing for a grouping node (it only forwards), `weight * number_of_bins`
for points and crosses, `weight` for a check. -/
def leafCap (e : RegNode) : Nat :=
  match e.kind with
  | .group => 0
  | .point => e.weight * e.hits.length
  | .cross => e.weight * e.hits.length
  | .check => e.weight

/-- Total reporting capacity of the strict descendants of `n`. -/
def capSum (db : Registry) (n : NodePath) : Int :=
  ((db.filter (fun p => strictPre n p.1)).map (fun p => (leafCap p.2 : Int))).sum

/-- The registered sizes dominate the reporting capacities: each node's
own capacity plus that of all its strict descendants fits in its `_size`.
`_update_size` establishes exactly this at registration time (with
equality), and sampling never changes sizes or capacities. -/
def CapOK (db : Registry) : Prop :=
  ∀ p ∈ db, (leafCap p.2 : Int) + capSum db p.1 ≤ (p.2.size : Int)

/-- The dict `coverage_db` cannot hold a key twice. -/
def NamesNodup (db : Registry) : Prop :=
  (db.map (fun p => p.1)).Nodup

/-- The `coverage` property value of a point or cross whose hit counts
are all still zero. -/
def freshCov (e : RegNode) : Int :=
  match e.kind with
  | .point => (e.size : Int) - (e.weight : Int) * (if 0 < e.atLeast then (e.hits.length : Int) else 0)
  | .cross => (e.size : Int) - (e.weight : Int) * (if 0 < e.atLeast then (e.hits.length : Int) else 0)
  | _ => 0

/-- What a node may have contributed upward so far (the sum of all deltas
it ever passed to `_update_coverage`).  Points and crosses propagate every
coverage change, so their contribution tracks their `coverage` property
exactly.  A check also tracks its property, except that an undetermined
sample silently bumps FAIL without propagating — after which the stale
contribution is still either 0 or `weight`. -/
def ContribOK (e : RegNode) (r : Int) : Prop :=
  match e.kind with
  | .group => r = 0
  | .point => r = e.covProp - freshCov e
  | .cross => r = e.covProp - freshCov e
  | .check => r = e.covProp ∨
      (0 < hitsOf e.hits (.str "FAIL") ∧ (r = 0 ∨ r = (e.weight : Int)))

/-- Sum of the contributions recorded for the strict descendants of `n`. -/
def prefSum (db : Registry) (r : NodePath → Int) (n : NodePath) : Int :=
  ((db.filter (fun p => strictPre n p.1)).map (fun p => r p.1)).sum

/-- The dynamic coverage invariant: some assignment of contributions is
consistent with every node's state, and every grouping node's
incrementally maintained `_coverage` is the sum of its strict
descendants' contributions. -/
def InvR (db : Registry) (r : NodePath → Int) : Prop :=
  (∀ p ∈ db, ContribOK p.2 (r p.1)) ∧
  (∀ p ∈ db, p.2.kind = .group → p.2.coverage = prefSum db r p.1)

/-- Full invariant carried across sampling events. -/
def CovInv (db : Registry) : Prop :=
  NamesNodup db ∧ CapOK db ∧ ∃ r, InvR db r

/-- A registry as it stands right after registration, before any sampling:
unique names, sizes dominating capacities, all hit counts zero, all
grouping coverages zero. -/
def WF0 (db : Registry) : Prop :=
  NamesNodup db ∧ CapOK db ∧
  (∀ p ∈ db, ∀ bh ∈ p.2.hits, bh.2 = 0) ∧
  (∀ p ∈ db, p.2.kind = .group → p.2.coverage = 0)

/-- The per-entry effect of one sampling event at node `n`: the node
itself is replaced by its mutated object `e2`, and every strict ancestor
receives the coverage delta `d`. -/
def stepFun (n : NodePath) (e2 : RegNode) (d : Int) (p : NodePath × RegNode) :
    NodePath × RegNode :=
  let q := if p.1 = n then (p.1, e2) else p
  if strictPre q.1 n then (q.1, { q.2 with coverage := q.2.coverage + d }) else q

theorem smear_eq_map (db : Registry) (n : NodePath) (e2 : RegNode) (d : Int) :
    update_coverage (dbSet db n e2) n d = db.map (stepFun n e2 d) := by
  unfold update_coverage dbSet
  rw [List.map_map]
  rfl

theorem stepFun_fst (n : NodePath) (e2 : RegNode) (d : Int) (p : NodePath × RegNode) :
    (stepFun n e2 d p).1 = p.1 := by
  unfold stepFun
  simp only []
  split_ifs <;> rfl

theorem stepFun_snd_ne (n : NodePath) (e2 : RegNode) (d : Int) (p : NodePath × RegNode)
    (h : ¬ p.1 = n) :
    (stepFun n e2 d p).2 =
      if strictPre p.1 n then { p.2 with coverage := p.2.coverage + d } else p.2 := by
  unfold stepFun
  rw [if_neg h]
  by_cases hs : strictPre p.1 n = true
  · rw [if_pos hs, if_pos hs]
  · rw [if_neg hs, if_neg hs]

theorem stepFun_snd_self (n : NodePath) (e2 : RegNode) (d : Int) (p : NodePath × RegNode)
    (h : p.1 = n) : stepFun n e2 d p = (p.1, e2) := by
  unfold stepFun
  rw [if_pos h]
  rw [if_neg]
  simp [h, strictPre_irrefl]

/-- In a registry without duplicate names, a membership fact and a lookup
result for the same name agree. -/
theorem dbLookup_unique (db : Registry) (n : NodePath) (x e : RegNode)
    (hnd : NamesNodup db) (hmem : (n, x) ∈ db) (hlk : dbLookup db n = some e) :
    x = e := by
  induction db with
  | nil => cases hmem
  | cons p rest ih =>
    rw [dbLookup_cons] at hlk
    unfold NamesNodup at hnd
    rw [List.map_cons, List.nodup_cons] at hnd
    obtain ⟨hp1, hrest⟩ := hnd
    cases List.mem_cons.mp hmem with
    | inl heq =>
      cases heq.symm
      rw [if_pos rfl] at hlk
      exact Option.some.inj hlk
    | inr hmem2 =>
      by_cases h1 : p.1 = n
      · exact absurd (h1 ▸ List.mem_map.mpr ⟨(n, x), hmem2, rfl⟩) hp1
      · rw [if_neg h1] at hlk
        exact ih hrest hmem2 hlk

theorem mapped_names (db : Registry) (g : NodePath × RegNode → NodePath × RegNode)
    (hfst : ∀ p ∈ db, (g p).1 = p.1) :
    (db.map g).map (fun p => p.1) = db.map (fun p => p.1) := by
  rw [List.map_map]
  exact List.map_congr_left (fun p hp => hfst p hp)

theorem capSum_map (db : Registry) (g : NodePath × RegNode → NodePath × RegNode)
    (n : NodePath) (hfst : ∀ p ∈ db, (g p).1 = p.1)
    (hcap : ∀ p ∈ db, leafCap (g p).2 = leafCap p.2) :
    capSum (db.map g) n = capSum db n := by
  unfold capSum
  rw [List.filter_map]
  have h1 : db.filter ((fun p => strictPre n p.1) ∘ g) =
      db.filter (fun p => strictPre n p.1) :=
    List.filter_congr (by intro p hp; simp [Function.comp, hfst p hp])
  rw [h1, List.map_map]
  refine congrArg List.sum (List.map_congr_left ?_)
  intro p hp
  simp [Function.comp, hcap p (List.mem_of_mem_filter hp)]

theorem prefSum_map (db : Registry) (g : NodePath × RegNode → NodePath × RegNode)
    (r : NodePath → Int) (n : NodePath) (hfst : ∀ p ∈ db, (g p).1 = p.1) :
    prefSum (db.map g) r n = prefSum db r n := by
  unfold prefSum
  rw [List.filter_map]
  have h1 : db.filter ((fun p => strictPre n p.1) ∘ g) =
      db.filter (fun p => strictPre n p.1) :=
    List.filter_congr (by intro p hp; simp [Function.comp, hfst p hp])
  rw [h1, List.map_map]
  refine congrArg List.sum (List.map_congr_left ?_)
  intro p hp
  simp [Function.comp, hfst p (List.mem_of_mem_filter hp)]

theorem prefSum_cons (p : NodePath × RegNode) (rest : Registry) (r : NodePath → Int)
    (n : NodePath) :
    prefSum (p :: rest) r n =
      (if strictPre n p.1 then r p.1 else 0) + prefSum rest r n := by
  unfold prefSum
  rw [List.filter_cons]
  by_cases h : strictPre n p.1 = true
  · simp [h]
  · simp [h]

theorem prefSum_congr (db : Registry) (r1 r2 : NodePath → Int) (n : NodePath)
    (h : ∀ p ∈ db, r1 p.1 = r2 p.1) : prefSum db r1 n = prefSum db r2 n := by
  unfold prefSum
  exact congrArg List.sum
    (List.map_congr_left (fun p hp => h p (List.mem_of_mem_filter hp)))

/-- Bumping the recorded contribution of one registered name changes a
descendant sum by the delta exactly when that name is a strict descendant
of the summing node. -/
theorem prefSum_update (db : Registry) (r : NodePath → Int) (n : NodePath) (d : Int)
    (m : NodePath) (hnd : NamesNodup db) :
    prefSum db (fun x => if x = n then r x + d else r x) m =
      prefSum db r m +
        (if n ∈ db.map (fun p => p.1) ∧ strictPre m n = true then d else 0) := by
  induction db with
  | nil => simp [prefSum]
  | cons p rest ih =>
    unfold NamesNodup at hnd
    rw [List.map_cons, List.nodup_cons] at hnd
    obtain ⟨hp1, hrest⟩ := hnd
    rw [prefSum_cons, prefSum_cons]
    by_cases h1 : p.1 = n
    · have hnn : n ∉ rest.map (fun p => p.1) := h1 ▸ hp1
      have hcongr : prefSum rest (fun x => if x = n then r x + d else r x) m =
          prefSum rest r m := by
        refine prefSum_congr rest _ r m ?_
        intro q hq
        have hqn : ¬ q.1 = n := fun hc => hnn (hc ▸ List.mem_map.mpr ⟨q, hq, rfl⟩)
        simp [hqn]
      have hmem : n ∈ List.map (fun p => p.1) (p :: rest) := by
        rw [List.map_cons, h1]
        exact List.mem_cons_self n (rest.map (fun p => p.1))
      rw [hcongr, h1, if_pos rfl]
      by_cases hsp : strictPre m n = true
      · rw [if_pos hsp, if_pos hsp, if_pos (And.intro hmem hsp)]
        omega
      · rw [if_neg hsp, if_neg hsp, if_neg (fun hc => hsp (And.right hc))]
        omega
    · rw [if_neg h1, ih hrest]
      have hmemiff : ((n ∈ List.map (fun p => p.1) (p :: rest)) ∧ strictPre m n = true) ↔
          ((n ∈ List.map (fun p => p.1) rest) ∧ strictPre m n = true) := by
        rw [List.map_cons]
        constructor
        · rintro ⟨hc, hs⟩
          rcases List.mem_cons.mp hc with hh | hh
          · exact absurd hh.symm h1
          · exact ⟨hh, hs⟩
        · rintro ⟨hc, hs⟩
          exact ⟨List.mem_cons_of_mem _ hc, hs⟩
      rw [if_congr hmemiff rfl rfl]
      omega

theorem matchBins_length (rel : PyVal → PyVal → Bool) (inj : Bool) (v : PyVal)
    (hs : List (PyVal × Nat)) : (matchBins rel inj v hs).1.length = hs.length := by
  induction hs with
  | nil => rfl
  | cons bh rest ih =>
    unfold matchBins
    cases inj <;> by_cases h1 : rel v bh.1 = true <;> simp [h1, ih]

theorem bumpHit_length (hs : List (PyVal × Nat)) (k : PyVal) :
    (bumpHit hs k).length = hs.length := by
  simp [bumpHit]

theorem foldl_bumpHit_length (l : List (List PyVal)) (hs : List (PyVal × Nat)) :
    (l.foldl (fun hs x => bumpHit hs (.tup x)) hs).length = hs.length := by
  induction l generalizing hs with
  | nil => rfl
  | cons x rest ih => rw [List.foldl_cons, ih, bumpHit_length]

theorem unsatCount_le_length (al : Nat) (hs : List (PyVal × Nat)) :
    unsatCount al hs ≤ hs.length :=
  List.length_filter_le _ _

theorem unsatCount_atLeast_zero (hs : List (PyVal × Nat)) : unsatCount 0 hs = 0 := by
  unfold unsatCount
  rw [List.filter_eq_nil_iff.mpr]
  · rfl
  · intro bh _
    simp

theorem unsatCount_of_zero_hits (al : Nat) (hs : List (PyVal × Nat))
    (h : ∀ bh ∈ hs, bh.2 = 0) :
    unsatCount al hs = if 0 < al then hs.length else 0 := by
  induction hs with
  | nil => simp [unsatCount]
  | cons bh rest ih =>
    have hbh : bh.2 = 0 := h bh (List.mem_cons_self bh rest)
    have hrest := ih (fun x hx => h x (List.mem_cons_of_mem bh hx))
    unfold unsatCount at hrest ⊢
    rw [List.filter_cons]
    by_cases hal : 0 < al
    · have : decide (bh.2 < al) = true := by simp [hbh, hal]
      simp only [this, if_true, List.length_cons, hrest, if_pos hal]
    · have hlt : ¬ bh.2 < al := by omega
      simp [hlt, hrest, hal]

theorem hitsOf_of_zero_hits (hs : List (PyVal × Nat)) (k : PyVal)
    (h : ∀ bh ∈ hs, bh.2 = 0) : hitsOf hs k = 0 := by
  induction hs with
  | nil => rfl
  | cons bh rest ih =>
    rw [show hitsOf (bh :: rest) k = if bh.1 = k then bh.2 else hitsOf rest k from rfl]
    by_cases h1 : bh.1 = k
    · rw [if_pos h1]
      exact h bh (List.mem_cons_self bh rest)
    · rw [if_neg h1]
      exact ih (fun x hx => h x (List.mem_cons_of_mem bh hx))

theorem check_covProp_cases (e : RegNode) (hk : e.kind = .check) :
    e.covProp = 0 ∨ e.covProp = (e.weight : Int) := by
  simp only [RegNode.covProp, hk]
  split
  · exact Or.inr rfl
  · exact Or.inl rfl

/-- A coverage-only change never affects a contribution record: `covProp`
of a non-group node and `freshCov`, `leafCap`, `hitsOf` read no
`coverage` field, and for a group the record is just `r = 0`. -/
theorem ContribOK_bump (e : RegNode) (c : Int) (rr : Int) :
    ContribOK { e with coverage := c } rr ↔ ContribOK e rr := by
  cases he : e.kind <;>
    simp [ContribOK, he, RegNode.covProp, freshCov]

theorem leafCap_bump (e : RegNode) (c : Int) :
    leafCap { e with coverage := c } = leafCap e := by
  cases he : e.kind <;> simp [leafCap, he]

theorem freshCov_congr (e1 e2 : RegNode) (hk : e2.kind = e1.kind)
    (hs : e2.size = e1.size) (hw : e2.weight = e1.weight)
    (ha : e2.atLeast = e1.atLeast) (hl : e2.hits.length = e1.hits.length) :
    freshCov e2 = freshCov e1 := by
  unfold freshCov
  rw [hk, hs, hw, ha, hl]

theorem leafCap_congr (e1 e2 : RegNode) (hk : e2.kind = e1.kind)
    (hw : e2.weight = e1.weight) (hl : e2.hits.length = e1.hits.length) :
    leafCap e2 = leafCap e1 := by
  unfold leafCap
  rw [hk, hw, hl]

theorem contrib_bounds (e : RegNode) (rr : Int) (h : ContribOK e rr) :
    0 ≤ rr ∧ rr ≤ (leafCap e : Int) := by
  cases he : e.kind
  case group =>
    simp only [ContribOK, he] at h
    simp [leafCap, he, h]
  case point =>
    simp only [ContribOK, he, RegNode.covProp, freshCov] at h
    have hcast : (if 0 < e.atLeast then (e.hits.length : Int) else 0) =
        (((if 0 < e.atLeast then e.hits.length else 0) : Nat) : Int) := by
      split <;> simp
    rw [hcast] at h
    have h1 : unsatCount e.atLeast e.hits ≤ (if 0 < e.atLeast then e.hits.length else 0) := by
      by_cases hal : 0 < e.atLeast
      · rw [if_pos hal]
        exact unsatCount_le_length _ _
      · rw [if_neg hal]
        have h0 : e.atLeast = 0 := by omega
        rw [h0, unsatCount_atLeast_zero]
    have h2 : (if 0 < e.atLeast then e.hits.length else 0) ≤ e.hits.length := by
      split <;> omega
    have h3 : e.weight * unsatCount e.atLeast e.hits ≤
        e.weight * (if 0 < e.atLeast then e.hits.length else 0) :=
      Nat.mul_le_mul_left _ h1
    have h4 : e.weight * (if 0 < e.atLeast then e.hits.length else 0) ≤
        e.weight * e.hits.length :=
      Nat.mul_le_mul_left _ h2
    simp only [leafCap, he]
    have h5 : rr = ((e.weight * (if 0 < e.atLeast then e.hits.length else 0) : Nat) : Int) -
        ((e.weight * unsatCount e.atLeast e.hits : Nat) : Int) := by
      rw [h]
      push_cast
      ring
    omega
  case cross =>
    simp only [ContribOK, he, RegNode.covProp, freshCov] at h
    have hcast : (if 0 < e.atLeast then (e.hits.length : Int) else 0) =
        (((if 0 < e.atLeast then e.hits.length else 0) : Nat) : Int) := by
      split <;> simp
    rw [hcast] at h
    have h1 : unsatCount e.atLeast e.hits ≤ (if 0 < e.atLeast then e.hits.length else 0) := by
      by_cases hal : 0 < e.atLeast
      · rw [if_pos hal]
        exact unsatCount_le_length _ _
      · rw [if_neg hal]
        have h0 : e.atLeast = 0 := by omega
        rw [h0, unsatCount_atLeast_zero]
    have h2 : (if 0 < e.atLeast then e.hits.length else 0) ≤ e.hits.length := by
      split <;> omega
    have h3 : e.weight * unsatCount e.atLeast e.hits ≤
        e.weight * (if 0 < e.atLeast then e.hits.length else 0) :=
      Nat.mul_le_mul_left _ h1
    have h4 : e.weight * (if 0 < e.atLeast then e.hits.length else 0) ≤
        e.weight * e.hits.length :=
      Nat.mul_le_mul_left _ h2
    simp only [leafCap, he]
    have h5 : rr = ((e.weight * (if 0 < e.atLeast then e.hits.length else 0) : Nat) : Int) -
        ((e.weight * unsatCount e.atLeast e.hits : Nat) : Int) := by
      rw [h]
      push_cast
      ring
    omega
  case check =>
    simp only [ContribOK, he] at h
    simp only [leafCap, he]
    rcases h with h | ⟨hf, h | h⟩
    · rcases check_covProp_cases e he with hc | hc
      · rw [h, hc]
        simp
      · rw [h, hc]
        simp
    · rw [h]
      simp
    · rw [h]
      simp

theorem capSum_nonneg (db : Registry) (n : NodePath) : 0 ≤ capSum db n := by
  unfold capSum
  apply List.sum_nonneg
  intro x hx
  obtain ⟨p, hp, hpx⟩ := List.mem_map.mp hx
  rw [← hpx]
  exact Int.natCast_nonneg _

theorem dbLookup_mem_names (db : Registry) (n : NodePath) (e : RegNode)
    (h : dbLookup db n = some e) : n ∈ db.map (fun p => p.1) := by
  induction db with
  | nil => cases h
  | cons p rest ih =>
    rw [dbLookup_cons] at h
    rw [List.map_cons]
    by_cases h1 : p.1 = n
    · rw [h1]
      exact List.mem_cons_self n (rest.map (fun p => p.1))
    · rw [if_neg h1] at h
      exact List.mem_cons_of_mem _ (ih h)

/-- Central preservation step: one sampling event at a non-group node `n`
that replaces the node by a same-shaped object `e2` and propagates the
delta `d` to the strict ancestors keeps the coverage invariant, provided
the node's own contribution record survives the shift by `d`. -/
theorem leafStep_inv (db : Registry) (n : NodePath) (e e2 : RegNode) (d : Int)
    (hlk : dbLookup db n = some e)
    (hk : e2.kind = e.kind) (hkg : ¬ e.kind = .group)
    (hsz : e2.size = e.size) (hw : e2.weight = e.weight)
    (ha : e2.atLeast = e.atLeast) (hl : e2.hits.length = e.hits.length)
    (hcontrib : ∀ rr, ContribOK e rr → ContribOK e2 (rr + d))
    (hinv : CovInv db) :
    CovInv (update_coverage (dbSet db n e2) n d) := by
  obtain ⟨hnd, hcap, r, hA, hB⟩ := hinv
  rw [smear_eq_map]
  have hfst : ∀ p ∈ db, (stepFun n e2 d p).1 = p.1 := fun p _ => stepFun_fst n e2 d p
  have hsnd : ∀ p ∈ db, (p.1 = n ∧ (stepFun n e2 d p).2 = e2 ∧ p.2 = e) ∨
      (¬ p.1 = n ∧ (stepFun n e2 d p).2 =
        (if strictPre p.1 n then { p.2 with coverage := p.2.coverage + d } else p.2)) := by
    intro p hp
    by_cases h1 : p.1 = n
    · refine Or.inl ⟨h1, ?_, ?_⟩
      · rw [stepFun_snd_self n e2 d p h1]
      · have hmem2 : (n, p.2) ∈ db := by
          rw [← h1]
          exact hp
        exact dbLookup_unique db n p.2 e hnd hmem2 hlk
    · exact Or.inr ⟨h1, stepFun_snd_ne n e2 d p h1⟩
  have hleafcap : ∀ p ∈ db, leafCap (stepFun n e2 d p).2 = leafCap p.2 := by
    intro p hp
    rcases hsnd p hp with ⟨h1, hgp, hpe⟩ | ⟨h1, hgp⟩
    · rw [hgp, hpe]
      exact leafCap_congr e e2 hk hw hl
    · rw [hgp]
      by_cases hsp : strictPre p.1 n = true
      · rw [if_pos hsp, leafCap_bump]
      · rw [if_neg hsp]
  have hsize : ∀ p ∈ db, (stepFun n e2 d p).2.size = p.2.size := by
    intro p hp
    rcases hsnd p hp with ⟨h1, hgp, hpe⟩ | ⟨h1, hgp⟩
    · rw [hgp, hpe, hsz]
    · rw [hgp]
      by_cases hsp : strictPre p.1 n = true
      · rw [if_pos hsp]
      · rw [if_neg hsp]
  have hkindpres : ∀ p ∈ db, ¬ p.1 = n → (stepFun n e2 d p).2.kind = p.2.kind := by
    intro p hp h1
    rcases hsnd p hp with ⟨h2, _, _⟩ | ⟨h2, hgp⟩
    · exact absurd h2 h1
    · rw [hgp]
      by_cases hsp : strictPre p.1 n = true
      · rw [if_pos hsp]
      · rw [if_neg hsp]
  refine ⟨?_, ?_, ?_⟩
  · unfold NamesNodup
    rw [mapped_names db _ hfst]
    exact hnd
  · intro p' hp'
    obtain ⟨p, hp, hpe⟩ := List.mem_map.mp hp'
    rw [← hpe]
    rw [capSum_map db _ _ hfst hleafcap, hfst p hp, hleafcap p hp, hsize p hp]
    exact hcap p hp
  · refine ⟨fun m => if m = n then r m + d else r m, ?_, ?_⟩
    · intro p' hp'
      obtain ⟨p, hp, hpe⟩ := List.mem_map.mp hp'
      rw [← hpe, hfst p hp]
      rcases hsnd p hp with ⟨h1, hgp, hpe2⟩ | ⟨h1, hgp⟩
      · rw [hgp, h1]
        show ContribOK e2 (if n = n then r n + d else r n)
        rw [if_pos rfl]
        refine hcontrib (r n) ?_
        have hAe := hA p hp
        rw [hpe2, h1] at hAe
        exact hAe
      · rw [hgp]
        show ContribOK _ (if p.1 = n then r p.1 + d else r p.1)
        rw [if_neg h1]
        by_cases hsp : strictPre p.1 n = true
        · rw [if_pos hsp]
          exact (ContribOK_bump p.2 _ (r p.1)).mpr (hA p hp)
        · rw [if_neg hsp]
          exact hA p hp
    · intro p' hp' hkind
      obtain ⟨p, hp, hpe⟩ := List.mem_map.mp hp'
      rw [← hpe] at hkind ⊢
      rw [hfst p hp]
      rcases hsnd p hp with ⟨h1, hgp, hpe2⟩ | ⟨h1, hgp⟩
      · rw [hgp, hk] at hkind
        exact absurd hkind hkg
      · have hpk : p.2.kind = .group := by
          rw [← hkindpres p hp h1]
          exact hkind
        rw [prefSum_map db _ _ _ hfst]
        rw [prefSum_update db r n d p.1 hnd]
        have hmemn : n ∈ db.map (fun p => p.1) := dbLookup_mem_names db n e hlk
        rw [hgp]
        by_cases hsp : strictPre p.1 n = true
        · rw [if_pos hsp, if_pos (And.intro hmemn hsp)]
          have hBe := hB p hp hpk
          show p.2.coverage + d = prefSum db r p.1 + d
          omega
        · rw [if_neg hsp, if_neg (fun hc => hsp (And.right hc))]
          have hBe := hB p hp hpk
          omega

/-- Bumping one key leaves the count recorded for every other key alone. -/
theorem hitsOf_bumpHit_ne (hs : List (PyVal × Nat)) (k k2 : PyVal) (hne : ¬ k2 = k) :
    hitsOf (bumpHit hs k) k2 = hitsOf hs k2 := by
  induction hs with
  | nil => rfl
  | cons bh rest ih =>
    have hstep : bumpHit (bh :: rest) k =
        (if bh.1 = k then (bh.1, bh.2 + 1) else bh) :: bumpHit rest k := rfl
    rw [hstep]
    by_cases h1 : bh.1 = k
    · rw [if_pos h1]
      have h2 : ¬ bh.1 = k2 := fun hc => hne (by rw [← hc, h1])
      simp [hitsOf, h2, ih]
    · rw [if_neg h1]
      by_cases h2 : bh.1 = k2 <;> simp [hitsOf, h2, ih]

theorem sum_map_zero {α : Type} (l : List α) : (l.map (fun _ => (0 : Int))).sum = 0 := by
  induction l with
  | nil => rfl
  | cons x rest ih => simp [ih]

/-- With the all-zero contribution assignment every prefix sum vanishes. -/
theorem prefSum_zero (db : Registry) (n : NodePath) :
    prefSum db (fun _ => 0) n = 0 := by
  unfold prefSum
  exact sum_map_zero _

/-- `checkBump` never changes the node's `_size` and never changes how
many keys the hit map holds. -/
theorem checkBump_size (e : RegNode) (p : Option Bool) :
    (checkBump e p).size = e.size ∧ (checkBump e p).hits.length = e.hits.length := by
  unfold checkBump
  split
  · exact ⟨rfl, bumpHit_length _ _⟩
  · split
    · exact ⟨rfl, bumpHit_length _ _⟩
    · exact ⟨rfl, rfl⟩

/-- A point or cross sample shifts the node's contribution record by
exactly the delta of its `coverage` property, because the record tracks
that property relative to the fixed fresh baseline. -/
theorem leafContrib_shift (e e2 : RegNode) (hpc : e.kind = .point ∨ e.kind = .cross)
    (hk : e2.kind = e.kind) (hsz : e2.size = e.size) (hw : e2.weight = e.weight)
    (ha : e2.atLeast = e.atLeast) (hl : e2.hits.length = e.hits.length)
    (rr : Int) (h : ContribOK e rr) : ContribOK e2 (rr + (e2.covProp - e.covProp)) := by
  have hfc : freshCov e2 = freshCov e := freshCov_congr e e2 hk hsz hw ha hl
  cases hpc with
  | inl hp =>
    have hk2 : e2.kind = .point := hk.trans hp
    simp only [ContribOK, hp] at h
    simp only [ContribOK, hk2, hfc]
    omega
  | inr hp =>
    have hk2 : e2.kind = .cross := hk.trans hp
    simp only [ContribOK, hp] at h
    simp only [ContribOK, hk2, hfc]
    omega

/-- A propagating check sample shifts the contribution record by the
node's `coverage`-property delta: a live record keeps tracking the
property, and a stale record's node is FAIL-latched on both sides, where
the property is pinned to 0 and the delta to 0. -/
theorem checkContrib_shift (e e2 : RegNode) (hc : e.kind = .check)
    (hk : e2.kind = e.kind) (hw : e2.weight = e.weight)
    (hmono : ∀ k, hitsOf e.hits k ≤ hitsOf e2.hits k)
    (rr : Int) (h : ContribOK e rr) : ContribOK e2 (rr + (e2.covProp - e.covProp)) := by
  have hk2 : e2.kind = .check := hk.trans hc
  simp only [ContribOK, hc] at h
  simp only [ContribOK, hk2]
  cases h with
  | inl h =>
    left
    omega
  | inr h =>
    obtain ⟨hf, hor⟩ := h
    have hf2 : 0 < hitsOf e2.hits (.str "FAIL") := lt_of_lt_of_le hf (hmono _)
    have hcv : e.covProp = 0 := check_covProp_latched e hc hf
    have hcv2 : e2.covProp = 0 := check_covProp_latched e2 hk2 hf2
    refine Or.inr ⟨hf2, ?_⟩
    rw [hw, hcv, hcv2]
    omega

/-- A non-propagating (undetermined) check sample bumps only the FAIL
count and passes no delta upward, and the stale contribution record is
still admissible for the mutated node. -/
theorem checkContrib_silent (e e2 : RegNode) (hc : e.kind = .check)
    (hk : e2.kind = e.kind) (hw : e2.weight = e.weight) (ha : e2.atLeast = e.atLeast)
    (hhits : e2.hits = bumpHit e.hits (PyVal.str "FAIL")) (rr : Int)
    (h : ContribOK e rr) : ContribOK e2 (rr + 0) := by
  have hk2 : e2.kind = .check := hk.trans hc
  simp only [ContribOK, hc] at h
  simp only [ContribOK, hk2]
  by_cases hf2 : 0 < hitsOf e2.hits (PyVal.str "FAIL")
  · refine Or.inr ⟨hf2, ?_⟩
    rw [hw]
    cases h with
    | inl h =>
      rcases check_covProp_cases e hc with h0 | hwt
      · left; omega
      · right; omega
    | inr h =>
      rcases h.2 with h0 | hwt
      · left; omega
      · right; omega
  · left
    have hle : hitsOf e.hits (PyVal.str "FAIL") ≤ hitsOf e2.hits (PyVal.str "FAIL") := by
      rw [hhits]
      exact hitsOf_bumpHit_le _ _ _
    have hf0 : hitsOf e.hits (PyVal.str "FAIL") = 0 := by omega
    have hf20 : hitsOf e2.hits (PyVal.str "FAIL") = 0 := by omega
    have hpass : hitsOf e2.hits (PyVal.str "PASS") = hitsOf e.hits (PyVal.str "PASS") := by
      rw [hhits]
      exact hitsOf_bumpHit_ne _ _ _ (by decide)
    cases h with
    | inl h =>
      have hcv2 : e2.covProp = e.covProp := by
        simp only [RegNode.covProp, hk2, hc]
        rw [hf20, hf0, hpass, hw, ha]
      omega
    | inr hlat => exact absurd hlat.1 (by omega)

/-- One sampling event preserves the coverage invariant. -/
theorem step_inv (db : Registry) (ev : Event) (h : CovInv db) : CovInv (step db ev) := by
  cases ev with
  | samplePoint n v =>
    show CovInv (point_call db n v)
    cases hlk : dbLookup db n with
    | none =>
      unfold point_call
      rw [hlk]
      exact h
    | some e =>
      unfold point_call
      rw [hlk]
      simp only []
      by_cases hk : e.kind = NodeKind.point
      · rw [if_pos hk]
        exact leafStep_inv db n e
          { e with hits := (matchBins e.rel e.injection v e.hits).1,
                   newHits := (matchBins e.rel e.injection v e.hits).2 } _ hlk rfl
          (by rw [hk]; decide) rfl rfl rfl
          (matchBins_length e.rel e.injection v e.hits)
          (fun rr hrr => leafContrib_shift e
            { e with hits := (matchBins e.rel e.injection v e.hits).1,
                     newHits := (matchBins e.rel e.injection v e.hits).2 }
            (Or.inl hk) rfl rfl rfl rfl
            (matchBins_length e.rel e.injection v e.hits) rr hrr) h
      · rw [if_neg hk]
        exact h
  | sampleCross n =>
    show CovInv (cross_call db n)
    cases hlk : dbLookup db n with
    | none =>
      unfold cross_call
      rw [hlk]
      exact h
    | some e =>
      unfold cross_call
      rw [hlk]
      simp only []
      by_cases hk : e.kind = NodeKind.cross
      · rw [if_pos hk]
        exact leafStep_inv db n e
          { e with hits := (pyProduct (e.items.map (fun i =>
              match dbLookup db i with
              | some p => p.newHits
              | none => []))).foldl (fun hs x => bumpHit hs (.tup x)) e.hits } _ hlk rfl
          (by rw [hk]; decide) rfl rfl rfl
          (foldl_bumpHit_length _ e.hits)
          (fun rr hrr => leafContrib_shift e
            { e with hits := (pyProduct (e.items.map (fun i =>
                match dbLookup db i with
                | some p => p.newHits
                | none => []))).foldl (fun hs x => bumpHit hs (.tup x)) e.hits }
            (Or.inr hk) rfl rfl rfl rfl
            (foldl_bumpHit_length _ e.hits) rr hrr) h
      · rw [if_neg hk]
        exact h
  | sampleCheck n v =>
    show CovInv (check_call db n v)
    cases hlk : dbLookup db n with
    | none =>
      unfold check_call
      rw [hlk]
      exact h
    | some e =>
      unfold check_call
      rw [hlk]
      simp only []
      by_cases hk : e.kind = NodeKind.check
      · rw [if_pos hk]
        by_cases hps : (checkPassed e v).isSome
        · rw [if_pos hps]
          exact leafStep_inv db n e (checkBump e (checkPassed e v)) _ hlk
            (checkBump_shape e _).1 (by rw [hk]; decide)
            (checkBump_size e _).1 (checkBump_shape e _).2.1 (checkBump_shape e _).2.2
            (checkBump_size e _).2
            (fun rr hrr => checkContrib_shift e (checkBump e (checkPassed e v)) hk
              (checkBump_shape e _).1 (checkBump_shape e _).2.1
              (fun k => checkBump_hits_mono e _ k) rr hrr) h
        · rw [if_neg hps]
          have hnone : checkPassed e v = none := Option.not_isSome_iff_eq_none.mp hps
          rw [hnone]
          have hcb : checkBump e none
              = { e with hits := bumpHit e.hits (PyVal.str "FAIL") } := rfl
          rw [hcb, ← update_coverage_zero (dbSet db n
            { e with hits := bumpHit e.hits (PyVal.str "FAIL") }) n]
          exact leafStep_inv db n e
            { e with hits := bumpHit e.hits (PyVal.str "FAIL") } 0 hlk rfl
            (by rw [hk]; decide) rfl rfl rfl
            (bumpHit_length e.hits _)
            (fun rr hrr => checkContrib_silent e
              { e with hits := bumpHit e.hits (PyVal.str "FAIL") }
              hk rfl rfl rfl rfl rr hrr) h
      · rw [if_neg hk]
        exact h

/-- Any run of sampling events preserves the coverage invariant. -/
theorem run_inv (evs : List Event) (db : Registry) (h : CovInv db) :
    CovInv (run db evs) := by
  induction evs generalizing db with
  | nil => exact h
  | cons ev rest ih => exact ih (step db ev) (step_inv db ev h)

/-- A freshly registered registry satisfies the coverage invariant, with
the all-zero contribution assignment. -/
theorem WF0_CovInv (db : Registry) (h : WF0 db) : CovInv db := by
  obtain ⟨hnd, hcap, hz, hg⟩ := h
  refine ⟨hnd, hcap, fun _ => 0, ?_, ?_⟩
  · intro p hp
    cases hk : p.2.kind
    case group => simp [ContribOK, hk]
    case point =>
      simp only [ContribOK, hk, RegNode.covProp, freshCov]
      rw [unsatCount_of_zero_hits p.2.atLeast p.2.hits (hz p hp)]
      by_cases hal : 0 < p.2.atLeast <;> simp [hal]
    case cross =>
      simp only [ContribOK, hk, RegNode.covProp, freshCov]
      rw [unsatCount_of_zero_hits p.2.atLeast p.2.hits (hz p hp)]
      by_cases hal : 0 < p.2.atLeast <;> simp [hal]
    case check =>
      simp only [ContribOK, hk]
      left
      simp only [RegNode.covProp, hk]
      rw [hitsOf_of_zero_hits p.2.hits (PyVal.str "PASS") (hz p hp)]
      have hcon : ¬ (hitsOf p.2.hits (PyVal.str "FAIL") = 0 ∧ p.2.atLeast < 0) := by
        omega
      rw [if_neg hcon]
  · intro p hp hk
    rw [hg p hp hk, prefSum_zero]

/-- The coverage invariant pins every node's reported coverage between 0
and its registered size. -/
theorem covinv_bounds (db : Registry) (h : CovInv db) :
    ∀ p ∈ db, 0 ≤ p.2.covProp ∧ p.2.covProp ≤ (p.2.size : Int) := by
  obtain ⟨hnd, hcap, r, hA, hB⟩ := h
  intro p hp
  have hcapp := hcap p hp
  have hcs := capSum_nonneg db p.1
  cases hk : p.2.kind
  case group =>
    have hcov : p.2.covProp = prefSum db r p.1 := by
      rw [show p.2.covProp = p.2.coverage from by simp [RegNode.covProp, hk]]
      exact hB p hp hk
    have hl0 : (leafCap p.2 : Int) = 0 := by simp [leafCap, hk]
    constructor
    · rw [hcov]
      unfold prefSum
      apply List.sum_nonneg
      intro x hx
      obtain ⟨q, hq, hqe⟩ := List.mem_map.mp hx
      have hqdb : q ∈ db := List.mem_of_mem_filter hq
      rw [← hqe]
      exact (contrib_bounds q.2 (r q.1) (hA q hqdb)).1
    · rw [hcov]
      have hle : prefSum db r p.1 ≤ capSum db p.1 := by
        unfold prefSum capSum
        apply List.sum_le_sum
        intro q hq
        have hqdb : q ∈ db := List.mem_of_mem_filter hq
        exact (contrib_bounds q.2 (r q.1) (hA q hqdb)).2
      omega
  case point =>
    have hlcap : (leafCap p.2 : Int) = (p.2.weight : Int) * (p.2.hits.length : Int) := by
      rw [show leafCap p.2 = p.2.weight * p.2.hits.length from by simp [leafCap, hk]]
      push_cast
      ring
    have hW : (0 : Int) ≤ (p.2.weight : Int) := Nat.cast_nonneg _
    have h1 : ((unsatCount p.2.atLeast p.2.hits : Nat) : Int) ≤ (p.2.hits.length : Int) := by
      exact_mod_cast unsatCount_le_length p.2.atLeast p.2.hits
    have h2 : (p.2.weight : Int) * (unsatCount p.2.atLeast p.2.hits : Int)
        ≤ (p.2.weight : Int) * (p.2.hits.length : Int) :=
      mul_le_mul_of_nonneg_left h1 hW
    have h4 : (0 : Int) ≤ (p.2.weight : Int) * (unsatCount p.2.atLeast p.2.hits : Int) :=
      mul_nonneg hW (Nat.cast_nonneg _)
    have hcov : p.2.covProp
        = (p.2.size : Int) - (p.2.weight : Int) * (unsatCount p.2.atLeast p.2.hits : Int) := by
      simp [RegNode.covProp, hk]
    constructor
    · rw [hcov]; linarith
    · rw [hcov]; linarith
  case cross =>
    have hlcap : (leafCap p.2 : Int) = (p.2.weight : Int) * (p.2.hits.length : Int) := by
      rw [show leafCap p.2 = p.2.weight * p.2.hits.length from by simp [leafCap, hk]]
      push_cast
      ring
    have hW : (0 : Int) ≤ (p.2.weight : Int) := Nat.cast_nonneg _
    have h1 : ((unsatCount p.2.atLeast p.2.hits : Nat) : Int) ≤ (p.2.hits.length : Int) := by
      exact_mod_cast unsatCount_le_length p.2.atLeast p.2.hits
    have h2 : (p.2.weight : Int) * (unsatCount p.2.atLeast p.2.hits : Int)
        ≤ (p.2.weight : Int) * (p.2.hits.length : Int) :=
      mul_le_mul_of_nonneg_left h1 hW
    have h4 : (0 : Int) ≤ (p.2.weight : Int) * (unsatCount p.2.atLeast p.2.hits : Int) :=
      mul_nonneg hW (Nat.cast_nonneg _)
    have hcov : p.2.covProp
        = (p.2.size : Int) - (p.2.weight : Int) * (unsatCount p.2.atLeast p.2.hits : Int) := by
      simp [RegNode.covProp, hk]
    constructor
    · rw [hcov]; linarith
    · rw [hcov]; linarith
  case check =>
    have hlcap : (leafCap p.2 : Int) = (p.2.weight : Int) := by simp [leafCap, hk]
    rcases check_covProp_cases p.2 hk with h0 | hw
    · constructor
      · rw [h0]
      · rw [h0]
        exact Nat.cast_nonneg _
    · constructor
      · rw [hw]
        exact Nat.cast_nonneg _
      · rw [hw]
        linarith

/-- **C4**  For every registered node (grouping `CoverItem`, `CoverPoint`,
`CoverCross` or `CoverCheck`), after any sequence of sample events the
inequality `0 ≤ coverage ≤ size` holds, where `coverage` is the value the
node's `coverage` property reports and `size` its registered `_size`. -/
theorem c4_coverage_within_bounds (db0 : Registry) (h0 : WF0 db0) (evs : List Event) :
    ∀ p ∈ run db0 evs, 0 ≤ p.2.covProp ∧ p.2.covProp ≤ (p.2.size : Int) :=
  covinv_bounds (run db0 evs) (run_inv evs db0 (WF0_CovInv db0 h0))

/-- A small freshly registered registry for exercising the bounds theorem:
the auto-created grouping node `top` with one `CoverCheck` beneath it. -/
def c4w_db : Registry :=
  (CoverCheck_register [] ["top", "chk"]
    (fun v => decide (v = PyVal.int 0))
    (some (fun v => match v with | PyVal.int m => decide (m < 5) | _ => false))
    2 1).reg

/-- Concrete instantiation of the bounds theorem: the witness registry is
freshly registered, and after a passing and then a failing sample every
registered node still reports a coverage between 0 and its size. -/
theorem c4_coverage_within_bounds_witness :
    WF0 c4w_db ∧
      ∀ p ∈ run c4w_db
          [Event.sampleCheck ["top", "chk"] (PyVal.int 3),
           Event.sampleCheck ["top", "chk"] (PyVal.int 0)],
        0 ≤ p.2.covProp ∧ p.2.covProp ≤ (p.2.size : Int) :=
  ⟨by unfold WF0 NamesNodup CapOK; decide,
   c4_coverage_within_bounds c4w_db (by unfold WF0 NamesNodup CapOK; decide) _⟩
